import Mathlib

/-!
# testinator: generation, shrinking and the property runner

A shallow embedding of `arbitrary_sequence_containers.h` and `property.h`.

* A container (`std::vector`, `std::deque`, `std::list`, `std::forward_list`) is the
  list of its elements from front to back.
* `std::size_t` and `unsigned long int` are natural numbers reduced modulo `2 ^ 64`
  wherever the source increments them.
* `Arbitrary<T>` is a record of the three static members `generate`, `generate_n`
  and `shrink`; the element generator `Arbitrary<V>` (declared in `arbitrary.h`) is a
  parameter of every container generator.
* The side effects of the runner (predicate calls, diagnostics, shrink calls, draws
  from the registry generator) are returned as the ordered list of events they cause.
* `checkSingle` and `check` carry a bound on the depth of the shrink search and return
  `none` when it is reached; the termination lemmas show that a bound above the size of
  the checked container is never reached.
* `PropertyTest::Setup` takes the value drawn from `std::random_device` and the seeding
  of the registry generator as parameters.
-/

namespace testinator

/-- Number of values of `std::size_t`. -/
def SIZE_MOD : Nat := 2 ^ 64

/-- Number of values of `unsigned long int`. -/
def ULONG_MOD : Nat := 2 ^ 64

/-- The generator protocol `Arbitrary<T>`: its three static member functions. -/
structure Arbitrary (α : Type) where
  generate : Nat → Nat → α
  generate_n : Nat → Nat → α
  shrink : α → List α

/-- `std::generate_n(std::back_inserter(v), n, gen)` for a generator `gen` that owns a
mutable state `S` (the variables its lambda captures by reference). -/
def generate_n_back {α S : Type} (gen : S → α × S) : Nat → S → List α → List α
  | 0, _, v => v
  | n + 1, s, v => generate_n_back gen n (gen s).2 (v ++ [(gen s).1])

/-- `std::generate_n(std::front_inserter(v), n, gen)`. -/
def generate_n_front {α S : Type} (gen : S → α × S) : Nat → S → List α → List α
  | 0, _, v => v
  | n + 1, s, v => generate_n_front gen n (gen s).2 ((gen s).1 :: v)

/-- The lambda `[&] () { return Arbitrary<V>::generate(generation++, randomSeed++); }`:
the state is the pair `(generation, randomSeed)`, both post-incremented. -/
def generateLambda {α : Type} (E : Arbitrary α) (s : Nat × Nat) : α × (Nat × Nat) :=
  (E.generate s.1 s.2, ((s.1 + 1) % SIZE_MOD, (s.2 + 1) % ULONG_MOD))

/-- The lambda `[&] () { return Arbitrary<V>::generate_n(n, randomSeed++); }`:
the state is `randomSeed`. -/
def generate_nLambda {α : Type} (E : Arbitrary α) (n : Nat) (s : Nat) : α × Nat :=
  (E.generate_n n s, (s + 1) % ULONG_MOD)

/-- The element count `N * ((generation / 100) + 1)` with `N = 10`, in `std::size_t`. -/
def elementCount (generation : Nat) : Nat :=
  (10 * ((generation / 100) + 1)) % SIZE_MOD

namespace Arbitrary_RandomSequence

/-- `Arbitrary_RandomSequence<C>::generate` (vector and deque). -/
def generate {α : Type} (E : Arbitrary α) (generation randomSeed : Nat) : List α :=
  if generation = 0 then []
  else generate_n_back (generateLambda E) (elementCount generation) (generation, randomSeed) []

/-- `Arbitrary_RandomSequence<C>::generate_n`. -/
def generate_n {α : Type} (E : Arbitrary α) (n randomSeed : Nat) : List α :=
  generate_n_back (generate_nLambda E n) n randomSeed []

/-- `Arbitrary_RandomSequence<C>::shrink`: `C{c.cbegin(), it}` is `c.take l` and
`C{it, c.cend()}` is `c.drop l`, for `it` advanced `l` places from `c.cbegin()`. -/
def shrink {α : Type} (c : List α) : List (List α) :=
  if c.isEmpty then []
  else
    let l := c.length / 2
    let v := [c.take l]
    if l > 0 then v ++ [c.drop l] else v

end Arbitrary_RandomSequence

/-- `Arbitrary<std::vector<T>>`. -/
def Arbitrary_vector {α : Type} (E : Arbitrary α) : Arbitrary (List α) where
  generate := Arbitrary_RandomSequence.generate E
  generate_n := Arbitrary_RandomSequence.generate_n E
  shrink := Arbitrary_RandomSequence.shrink

/-- `Arbitrary<std::deque<T>>`. -/
def Arbitrary_deque {α : Type} (E : Arbitrary α) : Arbitrary (List α) where
  generate := Arbitrary_RandomSequence.generate E
  generate_n := Arbitrary_RandomSequence.generate_n E
  shrink := Arbitrary_RandomSequence.shrink

/-- The loop `for (count = 0; count < l; count++, it++) v[0].push_back(*it);`:
`it` is the part of the container not yet visited; the result is `(v[0], it)`. -/
def pushBackLoop {α : Type} : Nat → List α → List α → List α × List α
  | 0, it, v0 => (v0, it)
  | _ + 1, [], v0 => (v0, [])
  | l + 1, x :: it, v0 => pushBackLoop l it (v0 ++ [x])

/-- The loop `for (count = 0; count < l; count++, it++) v[0].push_front(*it);`. -/
def pushFrontLoop {α : Type} : Nat → List α → List α → List α × List α
  | 0, it, v0 => (v0, it)
  | _ + 1, [], v0 => (v0, [])
  | l + 1, x :: it, v0 => pushFrontLoop l it (x :: v0)

/-- `copy(it, t.cend(), std::back_inserter(v1))`. -/
def copyBack {α : Type} : List α → List α → List α
  | [], v1 => v1
  | x :: it, v1 => copyBack it (v1 ++ [x])

/-- `copy(it, t.cend(), std::front_inserter(v1))`. -/
def copyFront {α : Type} : List α → List α → List α
  | [], v1 => v1
  | x :: it, v1 => copyFront it (x :: v1)

namespace Arbitrary_list

/-- `Arbitrary<std::list<T>>::generate`. -/
def generate {α : Type} (E : Arbitrary α) (generation randomSeed : Nat) : List α :=
  if generation = 0 then []
  else generate_n_back (generateLambda E) (elementCount generation) (generation, randomSeed) []

/-- `Arbitrary<std::list<T>>::generate_n`. -/
def generate_n {α : Type} (E : Arbitrary α) (n randomSeed : Nat) : List α :=
  generate_n_back (generate_nLambda E n) n randomSeed []

/-- `Arbitrary<std::list<T>>::shrink`. -/
def shrink {α : Type} (t : List α) : List (List α) :=
  if t.isEmpty then []
  else
    let l := t.length / 2
    let r := pushBackLoop l t []
    if l > 0 then [r.1, copyBack r.2 []] else [r.1]

end Arbitrary_list

/-- `Arbitrary<std::list<T>>`. -/
def Arbitrary_list.arbitrary {α : Type} (E : Arbitrary α) : Arbitrary (List α) where
  generate := Arbitrary_list.generate E
  generate_n := Arbitrary_list.generate_n E
  shrink := Arbitrary_list.shrink

namespace Arbitrary_forward_list

/-- `Arbitrary<std::forward_list<T>>::generate`. -/
def generate {α : Type} (E : Arbitrary α) (generation randomSeed : Nat) : List α :=
  if generation = 0 then []
  else generate_n_front (generateLambda E) (elementCount generation) (generation, randomSeed) []

/-- `Arbitrary<std::forward_list<T>>::generate_n`. -/
def generate_n {α : Type} (E : Arbitrary α) (n randomSeed : Nat) : List α :=
  generate_n_front (generate_nLambda E n) n randomSeed []

/-- `Arbitrary<std::forward_list<T>>::shrink`; `std::distance(t.cbegin(), t.cend())`
is the number of elements. The loop counter of the source is an `int`; the embedding
covers the lists whose half length fits in an `int`. -/
def shrink {α : Type} (t : List α) : List (List α) :=
  if t.isEmpty then []
  else
    let l := t.length / 2
    let r := pushFrontLoop l t []
    if l > 0 then [r.1, copyFront r.2 []] else [r.1]

end Arbitrary_forward_list

/-- `Arbitrary<std::forward_list<T>>`. -/
def Arbitrary_forward_list.arbitrary {α : Type} (E : Arbitrary α) : Arbitrary (List α) where
  generate := Arbitrary_forward_list.generate E
  generate_n := Arbitrary_forward_list.generate_n E
  shrink := Arbitrary_forward_list.shrink

/-! ## The property runner -/

/-- What the runner does that its caller can observe, in the order it happens. -/
inductive Event (α : Type) where
  /-- The call `Arbitrary<paramType>::generate(level, seed)`. -/
  | generate (level seed : Nat)
  /-- The call `m_u(p)` of the user predicate. -/
  | eval (p : α)
  /-- The diagnostic `"Failed: " << p`. -/
  | failed (p : α)
  /-- The call `Arbitrary<paramType>::shrink(p)`. -/
  | shrink (p : α)
  /-- The diagnostic `"Reproduce failure with --seed=" << seed`. -/
  | reproduce (seed : Nat)
  /-- The value returned by one call `GetTestRegistry().RNG()()`. -/
  | draw (value : Nat)
  deriving DecidableEq

/-- `std::all_of(v.cbegin(), v.cend(), f)` for an `f` with effects: it stops at the
first element on which `f` returns false. `none` is a call that did not finish. -/
def all_of {α : Type} (f : α → Option (Bool × List (Event α))) :
    List α → Option (Bool × List (Event α))
  | [] => some (true, [])
  | x :: xs =>
    match f x with
    | none => none
    | some (false, es) => some (false, es)
    | some (true, es) =>
      match all_of f xs with
      | none => none
      | some (b, es') => some (b, es ++ es')

namespace Property

/-- `Property::Internal::checkSingle`. The first argument bounds the depth of the
recursion; `none` means the bound was reached. -/
def checkSingle {α : Type} (A : Arbitrary α) (m_u : α → Bool) :
    Nat → α → Option (Bool × List (Event α))
  | 0, _ => none
  | fuel + 1, p =>
    if m_u p then some (true, [Event.eval p])
    else
      let v := A.shrink p
      if !v.isEmpty then
        match all_of (checkSingle A m_u fuel) v with
        | none => none
        | some (b, es) => some (b, [Event.eval p, Event.failed p, Event.shrink p] ++ es)
      else some (false, [Event.eval p, Event.failed p, Event.shrink p])

/-- The `for` loop of `Property::Internal::check` with `k` iterations left, the current
`seed` and the state `g` of the registry generator `RNG`. -/
def checkLoop {α σ : Type} (A : Arbitrary α) (m_u : α → Bool) (RNG : σ → Nat × σ)
    (fuel N : Nat) : Nat → Nat → σ → Option (Bool × List (Event α) × σ)
  | 0, _, g => some (true, [], g)
  | k + 1, seed, g =>
    match checkSingle A m_u fuel (A.generate N seed) with
    | none => none
    | some (false, es) =>
      some (false, Event.generate N seed :: es ++ [Event.reproduce seed], g)
    | some (true, es) =>
      match checkLoop A m_u RNG fuel N k ((RNG g).1 % ULONG_MOD) (RNG g).2 with
      | none => none
      | some (b, es', g') =>
        some (b, Event.generate N seed :: es ++ Event.draw (RNG g).1 :: es', g')

/-- `Property::Internal::check(N, op)` for a property whose seed is `m_randomSeed`. -/
def check {α σ : Type} (A : Arbitrary α) (m_u : α → Bool) (RNG : σ → Nat × σ)
    (fuel N m_randomSeed : Nat) (g : σ) : Option (Bool × List (Event α) × σ) :=
  checkLoop A m_u RNG fuel N N m_randomSeed g

end Property

/-! ## Reading an event list -/

/-- The values carried by the `"Failed: "` diagnostics, in order. -/
def failedValues {α : Type} : List (Event α) → List α
  | [] => []
  | Event.failed p :: es => p :: failedValues es
  | _ :: es => failedValues es

/-- The seeds carried by the `"Reproduce failure with --seed="` diagnostics, in order. -/
def reproduceSeeds {α : Type} : List (Event α) → List Nat
  | [] => []
  | Event.reproduce s :: es => s :: reproduceSeeds es
  | _ :: es => reproduceSeeds es

/-- Whether the event is a call of the user predicate. -/
def Event.isEval {α : Type} : Event α → Bool
  | Event.eval _ => true
  | _ => false

/-- Whether the event is a call of `shrink`. -/
def Event.isShrink {α : Type} : Event α → Bool
  | Event.shrink _ => true
  | _ => false

/-- Whether the event is a draw from the registry generator. -/
def Event.isDraw {α : Type} : Event α → Bool
  | Event.draw _ => true
  | _ => false

/-- Whether the event is a diagnostic handed to the outputter. -/
def Event.isDiagnostic {α : Type} : Event α → Bool
  | Event.failed _ => true
  | Event.reproduce _ => true
  | _ => false

/-- The seeds of the first `k` trials of a `check` in which every trial passes: the
property's seed, then one draw from the registry generator per trial. -/
def trialSeeds {σ : Type} (RNG : σ → Nat × σ) : Nat → Nat → σ → List Nat
  | 0, _, _ => []
  | k + 1, seed, g => seed :: trialSeeds RNG k ((RNG g).1 % ULONG_MOD) (RNG g).2

/-- The values the user predicate was called on, in order. -/
def evalValues {α : Type} : List (Event α) → List α
  | [] => []
  | Event.eval p :: es => p :: evalValues es
  | _ :: es => evalValues es

/-- The values returned by the draws from the registry generator, in order. -/
def drawValues {α : Type} : List (Event α) → List Nat
  | [] => []
  | Event.draw r :: es => r :: drawValues es
  | _ :: es => drawValues es

/-- The `(level, seed)` arguments of the calls of `generate`, in order. -/
def generateArgs {α : Type} : List (Event α) → List (Nat × Nat)
  | [] => []
  | Event.generate level seed :: es => (level, seed) :: generateArgs es
  | _ :: es => generateArgs es

/-- Whether the event is caused by the loop of `check` itself (a call of `generate`, a
reproduction diagnostic, a draw) and not by `checkSingle`. -/
def Event.isTrial {α : Type} : Event α → Bool
  | Event.generate _ _ => true
  | Event.reproduce _ => true
  | Event.draw _ => true
  | _ => false

/-- The values of the first `k` draws from the registry generator started in state `g`. -/
def rngDraws {σ : Type} (RNG : σ → Nat × σ) : Nat → σ → List Nat
  | 0, _ => []
  | k + 1, g => (RNG g).1 :: rngDraws RNG k (RNG g).2

/-- The state of the registry generator after `k` draws from state `g`. -/
def rngState {σ : Type} (RNG : σ → Nat × σ) : Nat → σ → σ
  | 0, g => g
  | k + 1, g => rngState RNG k (RNG g).2

/-- The generator protocol of one of the four sequence containers over the element
generator `E`. -/
def IsSequenceArbitrary {α : Type} (E : Arbitrary α) (A : Arbitrary (List α)) : Prop :=
  A = Arbitrary_vector E ∨ A = Arbitrary_deque E ∨ A = Arbitrary_list.arbitrary E ∨
    A = Arbitrary_forward_list.arbitrary E

/-! ## The property test fixture -/

/-- Modelled from the spec: the run parameters `testpp::RunParams` (declared in
`test.h`), of which `Setup` reads the number of property checks and the random seed,
`0` standing for a seed to be derived from the system entropy source. -/
structure RunParams where
  m_numPropertyChecks : Nat
  m_randomSeed : Nat

/-- The data members of `PropertyTest`. -/
structure PropertyTest where
  m_numChecks : Nat := 1
  m_randomSeed : Nat := 0

/-- `PropertyTest::Setup`. `rd` is the value the call `rd()` of the
`std::random_device` returns (an `unsigned int`, any value from `0` to `2 ^ 32 - 1`,
stored unchanged in the `unsigned long` member), and `seedRNG s` the state of the
registry generator after
`GetTestRegistry().RNG().seed(s)`. The result is the returned flag, the members after
the call and the state of the registry generator. -/
def PropertyTest.Setup {σ : Type} (seedRNG : Nat → σ) (rd : Nat) (params : RunParams) :
    Bool × PropertyTest × σ :=
  let m_numChecks := params.m_numPropertyChecks
  let m_randomSeed := params.m_randomSeed
  let m_randomSeed := if m_randomSeed = 0 then rd else m_randomSeed
  (true, { m_numChecks := m_numChecks, m_randomSeed := m_randomSeed }, seedRNG m_randomSeed)

/-! ## Sample inputs -/

/-- A sample element generator: the element is the seed it was generated with. -/
def seedElement : Arbitrary Nat where
  generate := fun _ randomSeed => randomSeed
  generate_n := fun _ randomSeed => randomSeed
  shrink := fun _ => []

/-- A sample registry generator: every draw returns `1000`. -/
def constantRNG (g : Unit) : Nat × Unit := (1000, g)

/-- A sample registry generator: the state counts the draws, and draw `k` returns
`7 * k + 3`. -/
def countingRNG (g : Nat) : Nat × Nat := (7 * g + 3, g + 1)

/-- A sample predicate: only the empty vector is accepted. -/
def isEmptyVector (v : List Nat) : Bool := v.isEmpty

/-- A sample predicate: a vector is accepted when it is not empty and holds no element
above `20`. -/
def nonEmptyAtMostTwenty (v : List Nat) : Bool := !v.isEmpty && v.all (fun x => decide (x ≤ 20))

/-- A sample predicate: a vector of exactly ten elements is rejected. -/
def sizeIsNotTen {α : Type} (v : List α) : Bool := v.length != 10

/-- A sample predicate: rejects vectors of ten elements, the empty vector and vectors
whose sum reaches `100`. -/
def smallSum (v : List Nat) : Bool := v.length != 10 && v != [] && v.sum < 100

end testinator

/-! ## Lemmas on the container generators and shrinkers -/

namespace testinator

theorem generate_n_back_append {α S : Type} (gen : S → α × S) (n : Nat) (s : S) (v : List α) :
    generate_n_back gen n s v = v ++ generate_n_back gen n s [] := by
  induction n generalizing s v with
  | zero => simp [generate_n_back]
  | succ n ih =>
    simp only [generate_n_back]
    rw [ih (gen s).2 (v ++ [(gen s).1]), ih (gen s).2 ([] ++ [(gen s).1])]
    simp

theorem generate_n_front_eq_reverse {α S : Type} (gen : S → α × S) (n : Nat) (s : S)
    (v : List α) :
    generate_n_front gen n s v = (generate_n_back gen n s []).reverse ++ v := by
  induction n generalizing s v with
  | zero => simp [generate_n_front, generate_n_back]
  | succ n ih =>
    simp only [generate_n_front, generate_n_back]
    rw [ih (gen s).2 ((gen s).1 :: v), generate_n_back_append gen n (gen s).2 ([] ++ [(gen s).1])]
    simp

theorem length_generate_n_back {α S : Type} (gen : S → α × S) (n : Nat) (s : S) (v : List α) :
    (generate_n_back gen n s v).length = v.length + n := by
  induction n generalizing s v with
  | zero => simp [generate_n_back]
  | succ n ih =>
    simp only [generate_n_back]
    rw [ih]
    simp
    omega

/-- The elements appended by the `generate` lambda, started from in-range counters. -/
theorem generate_n_back_generateLambda {α : Type} (E : Arbitrary α) (n g s : Nat) :
    generate_n_back (generateLambda E) n (g % SIZE_MOD, s % ULONG_MOD) [] =
      (List.range n).map
        (fun i => E.generate ((g + i) % SIZE_MOD) ((s + i) % ULONG_MOD)) := by
  induction n generalizing g s with
  | zero => simp [generate_n_back]
  | succ n ih =>
    simp only [generate_n_back]
    rw [generate_n_back_append]
    have hstep : (generateLambda E (g % SIZE_MOD, s % ULONG_MOD)).2 =
        ((g + 1) % SIZE_MOD, (s + 1) % ULONG_MOD) := by
      simp [generateLambda, Nat.add_mod]
    rw [hstep, ih (g + 1) (s + 1), List.range_succ_eq_map]
    simp [generateLambda, List.map_map, Function.comp_def, Nat.add_assoc, Nat.add_comm 1]

/-- The element count does not wrap for a generation that fits `std::size_t`. -/
theorem elementCount_eq (generation : Nat) (h : generation < SIZE_MOD) :
    elementCount generation = 10 * (generation / 100 + 1) := by
  unfold elementCount
  apply Nat.mod_eq_of_lt
  unfold SIZE_MOD at *
  omega

theorem pushBackLoop_eq {α : Type} (l : Nat) (t v0 : List α) :
    pushBackLoop l t v0 = (v0 ++ t.take l, t.drop l) := by
  induction l generalizing t v0 with
  | zero => simp [pushBackLoop]
  | succ l ih =>
    cases t with
    | nil => simp [pushBackLoop]
    | cons x t => simp [pushBackLoop, ih]

theorem pushFrontLoop_eq {α : Type} (l : Nat) (t v0 : List α) :
    pushFrontLoop l t v0 = ((t.take l).reverse ++ v0, t.drop l) := by
  induction l generalizing t v0 with
  | zero => simp [pushFrontLoop]
  | succ l ih =>
    cases t with
    | nil => simp [pushFrontLoop]
    | cons x t => simp [pushFrontLoop, ih]

theorem copyBack_eq {α : Type} (it v1 : List α) : copyBack it v1 = v1 ++ it := by
  induction it generalizing v1 with
  | nil => simp [copyBack]
  | cons x it ih => simp [copyBack, ih]

theorem copyFront_eq {α : Type} (it v1 : List α) : copyFront it v1 = it.reverse ++ v1 := by
  induction it generalizing v1 with
  | nil => simp [copyFront]
  | cons x it ih => simp [copyFront, ih]

/-- The three cases of the random-access shrinker. -/
theorem RandomSequence_shrink_cases {α : Type} (c : List α) :
    Arbitrary_RandomSequence.shrink c =
      if c.length = 0 then []
      else if c.length = 1 then [[]]
      else [c.take (c.length / 2), c.drop (c.length / 2)] := by
  unfold Arbitrary_RandomSequence.shrink
  cases c with
  | nil => simp
  | cons x c =>
    cases c with
    | nil => simp
    | cons y c =>
      have h : 0 < (c.length + 1 + 1) / 2 := by omega
      simp [h]

/-- The doubly-linked shrinker computes the same candidates as the random-access one. -/
theorem list_shrink_eq {α : Type} (t : List α) :
    Arbitrary_list.shrink t = Arbitrary_RandomSequence.shrink t := by
  unfold Arbitrary_list.shrink Arbitrary_RandomSequence.shrink
  simp only [pushBackLoop_eq, copyBack_eq]
  split <;> simp

/-- The singly-linked shrinker computes the same candidates, each one reversed. -/
theorem forward_list_shrink_eq {α : Type} (t : List α) :
    Arbitrary_forward_list.shrink t =
      (Arbitrary_RandomSequence.shrink t).map List.reverse := by
  unfold Arbitrary_forward_list.shrink Arbitrary_RandomSequence.shrink
  simp only [pushFrontLoop_eq, copyFront_eq]
  split
  · simp
  · split <;> simp

end testinator

/-! ## Claims on the container shrinkers and generators -/

namespace testinator

/-- C2: for a container of size `s`, `shrink` returns no candidate when `s = 0`, one
candidate of size `0` when `s = 1`, and otherwise two candidates of sizes `s / 2` and
`s - s / 2` in that order; this holds for the vector/deque, list and forward_list
shrinkers alike. -/
theorem shrink_candidate_sizes {α : Type} (c : List α) :
    (Arbitrary_RandomSequence.shrink c).map List.length =
        (if c.length = 0 then [] else if c.length = 1 then [0]
          else [c.length / 2, c.length - c.length / 2]) ∧
    (Arbitrary_list.shrink c).map List.length =
        (if c.length = 0 then [] else if c.length = 1 then [0]
          else [c.length / 2, c.length - c.length / 2]) ∧
    (Arbitrary_forward_list.shrink c).map List.length =
        (if c.length = 0 then [] else if c.length = 1 then [0]
          else [c.length / 2, c.length - c.length / 2]) := by
  have key : (Arbitrary_RandomSequence.shrink c).map List.length =
      (if c.length = 0 then [] else if c.length = 1 then [0]
        else [c.length / 2, c.length - c.length / 2]) := by
    rw [RandomSequence_shrink_cases]
    split
    · rfl
    · split
      · rfl
      · simp only [List.map_cons, List.map_nil, List.length_take, List.length_drop]
        congr 1
        omega
  refine ⟨key, ?_, ?_⟩
  · rw [list_shrink_eq]; exact key
  · rw [forward_list_shrink_eq, List.map_map]
    have : (List.length ∘ List.reverse : List α → Nat) = List.length := by
      funext x; simp
    rw [this]; exact key

/-- C3, as stated, fails on a one-element vector: its only candidate is the empty
vector, so the concatenation of the candidates is empty. -/
theorem shrink_concat_singleton_counterexample :
    (Arbitrary_RandomSequence.shrink [7]).flatten = [] ∧
    (Arbitrary_RandomSequence.shrink [7]).flatten ≠ [7] ∧
    (Arbitrary_list.shrink [7]).flatten ≠ [7] := by
  decide

/-- C3 (amended): for a tail-insert container (vector, deque, list) whose size is not
`1`, concatenating the candidates of `shrink` in order gives back the container. -/
theorem shrink_concat_reconstructs {α : Type} (c : List α) (h : c.length ≠ 1) :
    (Arbitrary_RandomSequence.shrink c).flatten = c ∧
    (Arbitrary_list.shrink c).flatten = c := by
  have key : (Arbitrary_RandomSequence.shrink c).flatten = c := by
    rw [RandomSequence_shrink_cases]
    split
    · rename_i h0
      simp [List.length_eq_zero.mp h0]
    · simp [h]
  exact ⟨key, by rw [list_shrink_eq]; exact key⟩

/-- Witness for `shrink_concat_reconstructs`: a vector of five elements. -/
theorem shrink_concat_reconstructs_witness :
    [1, 2, 3, 4, 5].length ≠ 1 ∧
    (Arbitrary_RandomSequence.shrink [1, 2, 3, 4, 5]).flatten = [1, 2, 3, 4, 5] ∧
    (Arbitrary_list.shrink [1, 2, 3, 4, 5]).flatten = [1, 2, 3, 4, 5] :=
  ⟨by decide, shrink_concat_reconstructs [1, 2, 3, 4, 5] (by decide)⟩

/-- Every candidate of the random-access shrinker is strictly shorter than its parent. -/
theorem RandomSequence_shrink_length_lt {α : Type} (c x : List α)
    (hx : x ∈ Arbitrary_RandomSequence.shrink c) : x.length < c.length := by
  rw [RandomSequence_shrink_cases] at hx
  split at hx
  · simp at hx
  · split at hx
    · simp at hx
      subst hx
      simp
      omega
    · simp at hx
      rcases hx with hx | hx <;> subst hx <;> simp [List.length_take, List.length_drop] <;> omega

/-- C4: every candidate returned by `shrink` (vector, deque, list, forward_list) has
strictly fewer elements than the container it was computed from, and so differs
from it. -/
theorem shrink_candidate_smaller {α : Type} (c x : List α)
    (hx : x ∈ Arbitrary_RandomSequence.shrink c ∨ x ∈ Arbitrary_list.shrink c ∨
      x ∈ Arbitrary_forward_list.shrink c) :
    x.length < c.length ∧ x ≠ c := by
  have hlt : x.length < c.length := by
    rcases hx with hx | hx | hx
    · exact RandomSequence_shrink_length_lt c x hx
    · rw [list_shrink_eq] at hx
      exact RandomSequence_shrink_length_lt c x hx
    · rw [forward_list_shrink_eq, List.mem_map] at hx
      obtain ⟨y, hy, rfl⟩ := hx
      simpa using RandomSequence_shrink_length_lt c y hy
  refine ⟨hlt, ?_⟩
  intro h
  subst h
  exact Nat.lt_irrefl _ hlt

/-- Witness for `shrink_candidate_smaller`: the second half of a forward_list of five
elements. -/
theorem shrink_candidate_smaller_witness :
    ([5, 4, 3] ∈ Arbitrary_RandomSequence.shrink [1, 2, 3, 4, 5] ∨
      [5, 4, 3] ∈ Arbitrary_list.shrink [1, 2, 3, 4, 5] ∨
      [5, 4, 3] ∈ Arbitrary_forward_list.shrink [1, 2, 3, 4, 5]) ∧
    [5, 4, 3].length < [1, 2, 3, 4, 5].length ∧ [5, 4, 3] ≠ [1, 2, 3, 4, 5] :=
  ⟨by decide, shrink_candidate_smaller [1, 2, 3, 4, 5] [5, 4, 3] (by decide)⟩

/-- C5: for a generation level that fits `std::size_t`, `generate(level, seed)` is
empty when `level = 0` and has `10 * (level / 100 + 1)` elements otherwise, for the
vector/deque, list and forward_list generators and any element generator. -/
theorem generate_size_by_level {α : Type} (E : Arbitrary α) (level seed : Nat)
    (h : level < SIZE_MOD) :
    (Arbitrary_RandomSequence.generate E level seed).length =
        (if level = 0 then 0 else 10 * (level / 100 + 1)) ∧
    (Arbitrary_list.generate E level seed).length =
        (if level = 0 then 0 else 10 * (level / 100 + 1)) ∧
    (Arbitrary_forward_list.generate E level seed).length =
        (if level = 0 then 0 else 10 * (level / 100 + 1)) := by
  unfold Arbitrary_RandomSequence.generate Arbitrary_list.generate
    Arbitrary_forward_list.generate
  by_cases h0 : level = 0
  · simp [h0]
  · simp [h0, generate_n_front_eq_reverse, length_generate_n_back, elementCount_eq level h]

/-- Witness for `generate_size_by_level`: level `250` gives thirty elements. -/
theorem generate_size_by_level_witness :
    250 < SIZE_MOD ∧
    (Arbitrary_RandomSequence.generate seedElement 250 7).length =
        (if 250 = 0 then 0 else 10 * (250 / 100 + 1)) ∧
    (Arbitrary_list.generate seedElement 250 7).length =
        (if 250 = 0 then 0 else 10 * (250 / 100 + 1)) ∧
    (Arbitrary_forward_list.generate seedElement 250 7).length =
        (if 250 = 0 then 0 else 10 * (250 / 100 + 1)) :=
  ⟨by decide, generate_size_by_level seedElement 250 7 (by decide)⟩

end testinator

namespace testinator

/-- The tail-insert generators list the element generator's values at the wrapped
counters `level + i` and `seed + i`. -/
theorem RandomSequence_generate_eq_map {α : Type} (E : Arbitrary α) (level seed : Nat)
    (hl : 0 < level) (hlt : level < SIZE_MOD) (hs : seed < ULONG_MOD) :
    Arbitrary_RandomSequence.generate E level seed =
      (List.range (10 * (level / 100 + 1))).map
        (fun i => E.generate ((level + i) % SIZE_MOD) ((seed + i) % ULONG_MOD)) := by
  unfold Arbitrary_RandomSequence.generate
  rw [if_neg (by omega), elementCount_eq level hlt]
  have h := generate_n_back_generateLambda E (10 * (level / 100 + 1)) level seed
  rwa [Nat.mod_eq_of_lt hlt, Nat.mod_eq_of_lt hs] at h

/-- The list generator runs the same code as the random-access one. -/
theorem list_generate_eq {α : Type} (E : Arbitrary α) (level seed : Nat) :
    Arbitrary_list.generate E level seed = Arbitrary_RandomSequence.generate E level seed :=
  rfl

/-- C6: for a level `0 < level` and a seed in the range of their types, the element at
index `i < 10 * (level / 100 + 1)` of the vector/deque and of the list built by
`generate(level, seed)` is the element generator applied to the counters advanced `i`
times, `level + i` in `std::size_t` and `seed + i` in `unsigned long`; where neither
sum leaves its type these are the plain sums. -/
theorem generate_element {α : Type} (E : Arbitrary α) (level seed i : Nat)
    (hl : 0 < level) (hlt : level < SIZE_MOD) (hs : seed < ULONG_MOD)
    (hi : i < 10 * (level / 100 + 1)) :
    (Arbitrary_RandomSequence.generate E level seed)[i]? =
        some (E.generate ((level + i) % SIZE_MOD) ((seed + i) % ULONG_MOD)) ∧
    (Arbitrary_list.generate E level seed)[i]? =
        some (E.generate ((level + i) % SIZE_MOD) ((seed + i) % ULONG_MOD)) ∧
    (level + i < SIZE_MOD → seed + i < ULONG_MOD →
      (Arbitrary_RandomSequence.generate E level seed)[i]? =
          some (E.generate (level + i) (seed + i)) ∧
      (Arbitrary_list.generate E level seed)[i]? =
          some (E.generate (level + i) (seed + i))) := by
  have key : (Arbitrary_RandomSequence.generate E level seed)[i]? =
      some (E.generate ((level + i) % SIZE_MOD) ((seed + i) % ULONG_MOD)) := by
    rw [RandomSequence_generate_eq_map E level seed hl hlt hs, List.getElem?_map,
      List.getElem?_range hi]
    rfl
  refine ⟨key, by rw [list_generate_eq]; exact key, ?_⟩
  intro h1 h2
  rw [list_generate_eq, key, Nat.mod_eq_of_lt h1, Nat.mod_eq_of_lt h2]
  exact ⟨rfl, rfl⟩

/-- Witness for `generate_element`: index `3` at level `1` and the seed
`2 ^ 64 - 2`, where the seed counter wraps to `1`. -/
theorem generate_element_witness :
    (0 < 1 ∧ 1 < SIZE_MOD ∧ 18446744073709551614 < ULONG_MOD ∧ 3 < 10 * (1 / 100 + 1)) ∧
    (Arbitrary_RandomSequence.generate seedElement 1 18446744073709551614)[3]? = some 1 ∧
    ((Arbitrary_RandomSequence.generate seedElement 1 18446744073709551614)[3]? =
        some (seedElement.generate ((1 + 3) % SIZE_MOD)
          ((18446744073709551614 + 3) % ULONG_MOD)) ∧
    (Arbitrary_list.generate seedElement 1 18446744073709551614)[3]? =
        some (seedElement.generate ((1 + 3) % SIZE_MOD)
          ((18446744073709551614 + 3) % ULONG_MOD)) ∧
    (1 + 3 < SIZE_MOD → 18446744073709551614 + 3 < ULONG_MOD →
      (Arbitrary_RandomSequence.generate seedElement 1 18446744073709551614)[3]? =
          some (seedElement.generate (1 + 3) (18446744073709551614 + 3)) ∧
      (Arbitrary_list.generate seedElement 1 18446744073709551614)[3]? =
          some (seedElement.generate (1 + 3) (18446744073709551614 + 3)))) :=
  ⟨by decide, by decide,
    generate_element seedElement 1 18446744073709551614 3 (by decide) (by decide)
      (by decide) (by decide)⟩

/-- C7: for every level, seed and element generator, the forward_list built by
`generate(level, seed)` is the list built by `generate(level, seed)` in reverse
order. -/
theorem forward_list_generate_reverse {α : Type} (E : Arbitrary α) (level seed : Nat) :
    Arbitrary_forward_list.generate E level seed =
      (Arbitrary_list.generate E level seed).reverse := by
  unfold Arbitrary_forward_list.generate Arbitrary_list.generate
  split
  · rfl
  · rw [generate_n_front_eq_reverse, List.append_nil]

end testinator

/-! ## Lemmas on the property runner -/

namespace testinator

theorem failedValues_append {α : Type} (a b : List (Event α)) :
    failedValues (a ++ b) = failedValues a ++ failedValues b := by
  induction a with
  | nil => rfl
  | cons e a ih => cases e <;> simp [failedValues, ih]

theorem reproduceSeeds_append {α : Type} (a b : List (Event α)) :
    reproduceSeeds (a ++ b) = reproduceSeeds a ++ reproduceSeeds b := by
  induction a with
  | nil => rfl
  | cons e a ih => cases e <;> simp [reproduceSeeds, ih]

/-- A value the predicate accepts is evaluated once and nothing else happens. -/
theorem checkSingle_accept {α : Type} (A : Arbitrary α) (m_u : α → Bool) (fuel : Nat) (p : α)
    (h : m_u p = true) :
    Property.checkSingle A m_u (fuel + 1) p = some (true, [Event.eval p]) := by
  simp [Property.checkSingle, h]

/-- A rejected value without shrink candidates is a terminal failure. -/
theorem checkSingle_reject_leaf {α : Type} (A : Arbitrary α) (m_u : α → Bool) (fuel : Nat)
    (p : α) (h : m_u p = false) (hs : A.shrink p = []) :
    Property.checkSingle A m_u (fuel + 1) p =
      some (false, [Event.eval p, Event.failed p, Event.shrink p]) := by
  simp [Property.checkSingle, h, hs]

/-- A rejected value with shrink candidates returns what `all_of` returns on them. -/
theorem checkSingle_reject_node {α : Type} (A : Arbitrary α) (m_u : α → Bool) (fuel : Nat)
    (p : α) (h : m_u p = false) (hs : A.shrink p ≠ []) :
    Property.checkSingle A m_u (fuel + 1) p =
      (all_of (Property.checkSingle A m_u fuel) (A.shrink p)).map
        (fun r => (r.1, [Event.eval p, Event.failed p, Event.shrink p] ++ r.2)) := by
  have hne : (A.shrink p).isEmpty = false := by
    cases hv : A.shrink p with
    | nil => exact absurd hv hs
    | cons c cs => rfl
  simp only [Property.checkSingle, h, hne]
  cases all_of (Property.checkSingle A m_u fuel) (A.shrink p) with
  | none => rfl
  | some r => rfl

/-- Under a predicate that rejects every value, and a shrinker whose candidates are
smaller in some measure, `checkSingle` returns false once the depth bound exceeds the
measure, and the last value it reports as failed has no shrink candidates. -/
theorem checkSingle_reject_all {α : Type} (A : Arbitrary α) (m_u : α → Bool)
    (size : α → Nat) (hsize : ∀ p c, c ∈ A.shrink p → size c < size p)
    (hm : ∀ v, m_u v = false) (n : Nat) :
    ∀ (p : α) (fuel : Nat), size p ≤ n → n < fuel →
      ∃ es v, Property.checkSingle A m_u fuel p = some (false, es) ∧
        (failedValues es).getLast? = some v ∧ A.shrink v = [] := by
  induction n with
  | zero =>
    intro p fuel hp hf
    obtain ⟨f, rfl⟩ : ∃ f, fuel = f + 1 := ⟨fuel - 1, by omega⟩
    have hs : A.shrink p = [] := by
      cases hv : A.shrink p with
      | nil => rfl
      | cons c cs =>
        have := hsize p c (by rw [hv]; exact List.mem_cons_self c cs)
        omega
    exact ⟨_, p, checkSingle_reject_leaf A m_u f p (hm p) hs, by simp [failedValues], hs⟩
  | succ n ih =>
    intro p fuel hp hf
    obtain ⟨f, rfl⟩ : ∃ f, fuel = f + 1 := ⟨fuel - 1, by omega⟩
    cases hv : A.shrink p with
    | nil =>
      exact ⟨_, p, checkSingle_reject_leaf A m_u f p (hm p) hv, by simp [failedValues], hv⟩
    | cons c cs =>
      have hc : size c ≤ n := by
        have := hsize p c (by rw [hv]; exact List.mem_cons_self c cs)
        omega
      obtain ⟨es, v, hes, hlast, hleaf⟩ := ih c f hc (by omega)
      refine ⟨[Event.eval p, Event.failed p, Event.shrink p] ++ es, v, ?_, ?_, hleaf⟩
      · rw [checkSingle_reject_node A m_u f p (hm p) (by rw [hv]; simp), hv]
        simp [all_of, hes]
      · rw [failedValues_append, List.getLast?_append, hlast]
        rfl

/-- A vector without shrink candidates is empty. -/
theorem RandomSequence_shrink_eq_nil {α : Type} (c : List α)
    (h : Arbitrary_RandomSequence.shrink c = []) : c = [] := by
  rw [RandomSequence_shrink_cases] at h
  split at h
  · rename_i h0
    exact List.length_eq_zero.mp h0
  · split at h <;> simp at h

/-- Length of a generated vector. -/
theorem RandomSequence_generate_length {α : Type} (E : Arbitrary α) (level seed : Nat)
    (h : level < SIZE_MOD) :
    (Arbitrary_RandomSequence.generate E level seed).length =
      (if level = 0 then 0 else 10 * (level / 100 + 1)) := by
  unfold Arbitrary_RandomSequence.generate
  by_cases h0 : level = 0
  · simp [h0]
  · simp [h0, length_generate_n_back, elementCount_eq level h]

end testinator

namespace testinator

/-- When the predicate accepts the value of each of the `k` trials left, the loop of
`check` returns true after one predicate call and one draw per trial, without any
shrink call or diagnostic. -/
theorem checkLoop_accept_all {α σ : Type} (A : Arbitrary α) (m_u : α → Bool)
    (RNG : σ → Nat × σ) (fuel N : Nat) :
    ∀ (k seed : Nat) (g : σ),
      (∀ s ∈ trialSeeds RNG k seed g, m_u (A.generate N s) = true) →
      ∃ es g', Property.checkLoop A m_u RNG (fuel + 1) N k seed g = some (true, es, g') ∧
        (es.filter Event.isEval).length = k ∧ (es.filter Event.isDraw).length = k ∧
        es.filter Event.isShrink = [] ∧ es.filter Event.isDiagnostic = [] := by
  intro k
  induction k with
  | zero =>
    intro seed g _
    exact ⟨[], g, rfl, rfl, rfl, rfl, rfl⟩
  | succ k ih =>
    intro seed g h
    have h0 : m_u (A.generate N seed) = true := h seed (by simp [trialSeeds])
    obtain ⟨es, g', hes, he, hd, hs, hdiag⟩ :=
      ih ((RNG g).1 % ULONG_MOD) (RNG g).2 (fun s hs => h s (by simp [trialSeeds, hs]))
    refine ⟨Event.generate N seed :: [Event.eval (A.generate N seed)] ++
      Event.draw (RNG g).1 :: es, g', ?_, ?_, ?_, ?_, ?_⟩
    · simp only [Property.checkLoop, checkSingle_accept A m_u fuel _ h0, hes]
    · simp [List.filter_cons, Event.isEval, he]
    · simp [List.filter_cons, Event.isDraw, hd]
    · simp [List.filter_cons, Event.isShrink, hs]
    · simp [List.filter_cons, Event.isDiagnostic, hdiag]

/-- On a vector of ten elements, the predicate that rejects exactly such vectors makes
`checkSingle` report the vector as failed and return true. -/
theorem checkSingle_sizeIsNotTen {α : Type} (E : Arbitrary α) (fuel : Nat) (p : List α)
    (hlen : p.length = 10) :
    Property.checkSingle (Arbitrary_vector E) sizeIsNotTen (fuel + 2) p =
      some (true, [Event.eval p, Event.failed p, Event.shrink p,
        Event.eval (p.take 5), Event.eval (p.drop 5)]) := by
  have hp : sizeIsNotTen p = false := by simp [sizeIsNotTen, hlen]
  have hshrink : Arbitrary_RandomSequence.shrink p = [p.take 5, p.drop 5] := by
    rw [RandomSequence_shrink_cases, hlen]
    rfl
  have h1 : sizeIsNotTen (p.take 5) = true := by simp [sizeIsNotTen, hlen]
  have h2 : sizeIsNotTen (p.drop 5) = true := by simp [sizeIsNotTen, hlen]
  rw [checkSingle_reject_node (Arbitrary_vector E) sizeIsNotTen (fuel + 1) p hp
    (by show Arbitrary_RandomSequence.shrink p ≠ []; rw [hshrink]; simp)]
  show Option.map _ (all_of _ (Arbitrary_RandomSequence.shrink p)) = _
  rw [hshrink]
  simp [all_of, checkSingle_accept _ _ fuel _ h1, checkSingle_accept _ _ fuel _ h2]

/-! ## Claims on the property runner -/

/-- C1 fails on the code: with `N = 1`, a vector property that rejects exactly the
vectors of ten elements rejects the generated value, `checkSingle` reports it as
failed, both shrink candidates (five elements each) are accepted, `all_of` returns
true, and `check` returns true. -/
theorem check_true_on_rejected_value {α σ : Type} (E : Arbitrary α) (RNG : σ → Nat × σ)
    (fuel seed : Nat) (g : σ) :
    sizeIsNotTen (Arbitrary_RandomSequence.generate E 1 seed) = false ∧
    Property.check (Arbitrary_vector E) sizeIsNotTen RNG (fuel + 2) 1 seed g =
      some (true,
        [Event.generate 1 seed,
         Event.eval (Arbitrary_RandomSequence.generate E 1 seed),
         Event.failed (Arbitrary_RandomSequence.generate E 1 seed),
         Event.shrink (Arbitrary_RandomSequence.generate E 1 seed),
         Event.eval ((Arbitrary_RandomSequence.generate E 1 seed).take 5),
         Event.eval ((Arbitrary_RandomSequence.generate E 1 seed).drop 5),
         Event.draw (RNG g).1],
        (RNG g).2) := by
  have hlen : (Arbitrary_RandomSequence.generate E 1 seed).length = 10 := by
    rw [RandomSequence_generate_length E 1 seed (by decide)]
    rfl
  have hgen : (Arbitrary_vector E).generate 1 seed =
      Arbitrary_RandomSequence.generate E 1 seed := rfl
  refine ⟨by simp [sizeIsNotTen, hlen], ?_⟩
  simp only [Property.check, Property.checkLoop, hgen,
    checkSingle_sizeIsNotTen E fuel _ hlen]
  rfl

/-- C8: for a vector property whose predicate rejects every vector and `N ≥ 1`,
`check(N, reporter)` returns false once the depth bound exceeds the size of the
generated vector, it emits at least one `Failed:` diagnostic, and the last value so
reported has size `0` or `1`. -/
theorem check_reject_all {α σ : Type} (E : Arbitrary α) (m_u : List α → Bool)
    (RNG : σ → Nat × σ) (fuel N seed : Nat) (g : σ)
    (hm : ∀ v, m_u v = false) (hN : 1 ≤ N)
    (hfuel : (Arbitrary_RandomSequence.generate E N seed).length < fuel) :
    ∃ es v, Property.check (Arbitrary_vector E) m_u RNG fuel N seed g = some (false, es, g) ∧
      failedValues es ≠ [] ∧ (failedValues es).getLast? = some v ∧
      (v.length = 0 ∨ v.length = 1) := by
  obtain ⟨k, rfl⟩ : ∃ k, N = k + 1 := ⟨N - 1, by omega⟩
  obtain ⟨es, v, hes, hlast, hleaf⟩ :=
    checkSingle_reject_all (Arbitrary_vector E) m_u List.length
      (fun p c hc => RandomSequence_shrink_length_lt p c hc) hm
      (Arbitrary_RandomSequence.generate E (k + 1) seed).length
      (Arbitrary_RandomSequence.generate E (k + 1) seed) fuel (Nat.le_refl _) hfuel
  have hv : v = [] := RandomSequence_shrink_eq_nil v hleaf
  have hfv : failedValues (Event.generate (k + 1) seed :: es ++ [Event.reproduce seed]) =
      failedValues es := by
    show failedValues (es ++ [Event.reproduce seed]) = failedValues es
    rw [failedValues_append]
    simp [failedValues]
  have hgen : (Arbitrary_vector E).generate (k + 1) seed =
      Arbitrary_RandomSequence.generate E (k + 1) seed := rfl
  refine ⟨Event.generate (k + 1) seed :: es ++ [Event.reproduce seed], v, ?_, ?_, ?_, ?_⟩
  · simp only [Property.check, Property.checkLoop, hgen, hes]
  · rw [hfv]
    intro h
    rw [h] at hlast
    simp at hlast
  · rw [hfv]
    exact hlast
  · left
    rw [hv]
    rfl

/-- Witness for `check_reject_all`: the always-false predicate, `N = 1`, seed `0`. -/
theorem check_reject_all_witness :
    ((∀ v : List Nat, (fun _ => false) v = false) ∧ 1 ≤ 1 ∧
      (Arbitrary_RandomSequence.generate seedElement 1 0).length < 11) ∧
    ∃ es v, Property.check (Arbitrary_vector seedElement) (fun _ => false) constantRNG
        11 1 0 () = some (false, es, ()) ∧
      failedValues es ≠ [] ∧ (failedValues es).getLast? = some v ∧
      (v.length = 0 ∨ v.length = 1) :=
  ⟨⟨fun _ => rfl, by decide, by decide⟩,
    check_reject_all seedElement (fun _ => false) constantRNG 11 1 0 ()
      (fun _ => rfl) (by decide) (by decide)⟩

/-- C9: when the predicate accepts the value generated for each of the `N` trials,
`check(N, reporter)` returns true, calls the predicate exactly `N` times, never calls
`shrink` and emits no diagnostic. -/
theorem check_accept_all {α σ : Type} (A : Arbitrary α) (m_u : α → Bool)
    (RNG : σ → Nat × σ) (fuel N seed : Nat) (g : σ) (hfuel : 0 < fuel)
    (h : ∀ s ∈ trialSeeds RNG N seed g, m_u (A.generate N s) = true) :
    ∃ es g', Property.check A m_u RNG fuel N seed g = some (true, es, g') ∧
      (es.filter Event.isEval).length = N ∧ es.filter Event.isShrink = [] ∧
      es.filter Event.isDiagnostic = [] := by
  obtain ⟨f, rfl⟩ : ∃ f, fuel = f + 1 := ⟨fuel - 1, by omega⟩
  obtain ⟨es, g', hes, he, _, hs, hd⟩ := checkLoop_accept_all A m_u RNG f N N seed g h
  exact ⟨es, g', hes, he, hs, hd⟩

/-- Witness for `check_accept_all`: the predicate `reverse (reverse v) = v` on vectors,
three trials. -/
theorem check_accept_all_witness :
    (0 < 1 ∧ ∀ s ∈ trialSeeds constantRNG 3 0 (),
      (fun v : List Nat => decide (v.reverse.reverse = v))
        ((Arbitrary_vector seedElement).generate 3 s) = true) ∧
    ∃ es g', Property.check (Arbitrary_vector seedElement)
        (fun v : List Nat => decide (v.reverse.reverse = v)) constantRNG 1 3 0 () =
          some (true, es, g') ∧
      (es.filter Event.isEval).length = 3 ∧ es.filter Event.isShrink = [] ∧
      es.filter Event.isDiagnostic = [] :=
  ⟨⟨by decide, fun s _ => by simp⟩,
    check_accept_all (Arbitrary_vector seedElement) _ constantRNG 1 3 0 () (by decide)
      (fun s _ => by simp)⟩

/-- C10 fails on the code: with `N = 2`, seed `0` and the predicate `smallSum`, trial `0`
reports its vector as failed yet passes (both halves are accepted), trial `1` fails
with seed `1000`; the run started from seed `1000` fails on its first trial and reports
seed `1000`, but its `Failed:` values lack the vector of the first run's trial `0`. -/
theorem check_rerun_failed_values_differ :
    (Property.check (Arbitrary_vector seedElement) smallSum constantRNG 11 2 0 ()).map
        (fun r => (r.1, failedValues r.2.1, reproduceSeeds r.2.1)) =
      some (false,
        [[0, 1, 2, 3, 4, 5, 6, 7, 8, 9],
         [1000, 1001, 1002, 1003, 1004, 1005, 1006, 1007, 1008, 1009],
         [1000, 1001, 1002, 1003, 1004], [1000, 1001], [1000], []],
        [1000]) ∧
    (Property.check (Arbitrary_vector seedElement) smallSum constantRNG 11 2 1000 ()).map
        (fun r => (r.1, failedValues r.2.1, reproduceSeeds r.2.1)) =
      some (false,
        [[1000, 1001, 1002, 1003, 1004, 1005, 1006, 1007, 1008, 1009],
         [1000, 1001, 1002, 1003, 1004], [1000, 1001], [1000], []],
        [1000]) := by
  decide

end testinator

/-! ## Lemmas on termination and on the shape of the event list -/

namespace testinator

/-- `all_of` returns when its function returns on every element. -/
theorem all_of_total {α : Type} (f : α → Option (Bool × List (Event α))) (v : List α)
    (h : ∀ x ∈ v, ∃ r, f x = some r) : ∃ r, all_of f v = some r := by
  induction v with
  | nil => exact ⟨_, rfl⟩
  | cons x xs ih =>
    obtain ⟨⟨b, es⟩, hx⟩ := h x (List.mem_cons_self x xs)
    obtain ⟨⟨b', es'⟩, hxs⟩ := ih (fun y hy => h y (List.mem_cons_of_mem x hy))
    cases b with
    | false => exact ⟨(false, es), by simp [all_of, hx]⟩
    | true => exact ⟨(b', es ++ es'), by simp [all_of, hx, hxs]⟩

/-- `all_of` gives the same result for a function that returns whatever `f` returns. -/
theorem all_of_mono {α : Type} (f f' : α → Option (Bool × List (Event α)))
    (h : ∀ x r, f x = some r → f' x = some r) (v : List α) :
    ∀ r, all_of f v = some r → all_of f' v = some r := by
  induction v with
  | nil => intro r hr; exact hr
  | cons x xs ih =>
    intro r hr
    cases hx : f x with
    | none => simp [all_of, hx] at hr
    | some rx =>
      obtain ⟨b, es⟩ := rx
      have hx' := h x _ hx
      cases b with
      | false =>
        simp only [all_of, hx] at hr
        simp only [all_of, hx']
        exact hr
      | true =>
        cases hxs : all_of f xs with
        | none => simp [all_of, hx, hxs] at hr
        | some rxs =>
          have hxs' := ih _ hxs
          simp only [all_of, hx, hxs] at hr
          simp only [all_of, hx', hxs']
          exact hr

/-- When `all_of` returns false, its function returned false on some element. -/
theorem all_of_false {α : Type} (f : α → Option (Bool × List (Event α))) (v : List α) :
    ∀ es, all_of f v = some (false, es) → ∃ x ∈ v, ∃ es', f x = some (false, es') := by
  induction v with
  | nil => intro es h; simp [all_of] at h
  | cons x xs ih =>
    intro es h
    cases hx : f x with
    | none => simp [all_of, hx] at h
    | some rx =>
      obtain ⟨b, ex⟩ := rx
      cases b with
      | false => exact ⟨x, List.mem_cons_self x xs, ex, hx⟩
      | true =>
        cases hxs : all_of f xs with
        | none => simp [all_of, hx, hxs] at h
        | some rxs =>
          obtain ⟨b', es'⟩ := rxs
          simp only [all_of, hx, hxs, Option.some.injEq, Prod.mk.injEq] at h
          obtain ⟨hb, _⟩ := h
          subst hb
          obtain ⟨y, hy, e, he⟩ := ih es' hxs
          exact ⟨y, List.mem_cons_of_mem x hy, e, he⟩

/-- Every event of `all_of` satisfies what every event of its function satisfies. -/
theorem all_of_events {α : Type} (f : α → Option (Bool × List (Event α)))
    (P : Event α → Prop) (v : List α)
    (h : ∀ x b es, f x = some (b, es) → ∀ e ∈ es, P e) :
    ∀ b es, all_of f v = some (b, es) → ∀ e ∈ es, P e := by
  induction v with
  | nil =>
    intro b es hr e he
    simp only [all_of, Option.some.injEq, Prod.mk.injEq] at hr
    rw [← hr.2] at he
    simp at he
  | cons x xs ih =>
    intro b es hr e he
    cases hx : f x with
    | none => simp [all_of, hx] at hr
    | some rx =>
      obtain ⟨bx, ex⟩ := rx
      cases bx with
      | false =>
        simp only [all_of, hx, Option.some.injEq, Prod.mk.injEq] at hr
        rw [← hr.2] at he
        exact h x false ex hx e he
      | true =>
        cases hxs : all_of f xs with
        | none => simp [all_of, hx, hxs] at hr
        | some rxs =>
          obtain ⟨b', es'⟩ := rxs
          simp only [all_of, hx, hxs, Option.some.injEq, Prod.mk.injEq] at hr
          rw [← hr.2] at he
          rcases List.mem_append.mp he with he | he
          · exact h x true ex hx e he
          · exact ih b' es' hxs e he

/-- A larger depth bound does not change what `checkSingle` returns. -/
theorem checkSingle_fuel_succ {α : Type} (A : Arbitrary α) (m_u : α → Bool) (fuel : Nat) :
    ∀ p r, Property.checkSingle A m_u fuel p = some r →
      Property.checkSingle A m_u (fuel + 1) p = some r := by
  induction fuel with
  | zero => intro p r h; simp [Property.checkSingle] at h
  | succ f ih =>
    intro p r h
    cases hm : m_u p with
    | true =>
      rw [checkSingle_accept A m_u f p hm] at h
      rw [checkSingle_accept A m_u (f + 1) p hm]
      exact h
    | false =>
      by_cases hs : A.shrink p = []
      · rw [checkSingle_reject_leaf A m_u f p hm hs] at h
        rw [checkSingle_reject_leaf A m_u (f + 1) p hm hs]
        exact h
      · rw [checkSingle_reject_node A m_u f p hm hs] at h
        rw [checkSingle_reject_node A m_u (f + 1) p hm hs]
        cases ha : all_of (Property.checkSingle A m_u f) (A.shrink p) with
        | none => simp [ha] at h
        | some ra =>
          rw [all_of_mono _ _ ih (A.shrink p) ra ha]
          rw [ha] at h
          exact h

/-- A larger depth bound does not change what `checkSingle` returns. -/
theorem checkSingle_fuel_le {α : Type} (A : Arbitrary α) (m_u : α → Bool) (fuel fuel' : Nat)
    (hle : fuel ≤ fuel') (p : α) (r : Bool × List (Event α))
    (h : Property.checkSingle A m_u fuel p = some r) :
    Property.checkSingle A m_u fuel' p = some r := by
  induction hle with
  | refl => exact h
  | step _ ih => exact checkSingle_fuel_succ A m_u _ p r ih

/-- With a shrinker whose candidates are smaller in some measure, `checkSingle`
returns as soon as the depth bound exceeds the measure of its argument. -/
theorem checkSingle_total {α : Type} (A : Arbitrary α) (m_u : α → Bool)
    (size : α → Nat) (hsize : ∀ p c, c ∈ A.shrink p → size c < size p) (n : Nat) :
    ∀ (p : α) (fuel : Nat), size p ≤ n → n < fuel →
      ∃ r, Property.checkSingle A m_u fuel p = some r := by
  induction n with
  | zero =>
    intro p fuel hp hf
    obtain ⟨f, rfl⟩ : ∃ f, fuel = f + 1 := ⟨fuel - 1, by omega⟩
    have hs : A.shrink p = [] := by
      cases hv : A.shrink p with
      | nil => rfl
      | cons c cs =>
        have := hsize p c (by rw [hv]; exact List.mem_cons_self c cs)
        omega
    cases hm : m_u p with
    | true => exact ⟨_, checkSingle_accept A m_u f p hm⟩
    | false => exact ⟨_, checkSingle_reject_leaf A m_u f p hm hs⟩
  | succ n ih =>
    intro p fuel hp hf
    obtain ⟨f, rfl⟩ : ∃ f, fuel = f + 1 := ⟨fuel - 1, by omega⟩
    cases hm : m_u p with
    | true => exact ⟨_, checkSingle_accept A m_u f p hm⟩
    | false =>
      by_cases hs : A.shrink p = []
      · exact ⟨_, checkSingle_reject_leaf A m_u f p hm hs⟩
      · rw [checkSingle_reject_node A m_u f p hm hs]
        obtain ⟨r, hr⟩ := all_of_total (Property.checkSingle A m_u f) (A.shrink p)
          (fun c hc => ih c f (by have := hsize p c hc; omega) (by omega))
        exact ⟨_, by rw [hr]; rfl⟩

/-- The events of `checkSingle` start with the call of the predicate on its argument,
and none of them is an event of the loop of `check`. -/
theorem checkSingle_events {α : Type} (A : Arbitrary α) (m_u : α → Bool) (fuel : Nat) :
    ∀ p b es, Property.checkSingle A m_u fuel p = some (b, es) →
      (∃ es', es = Event.eval p :: es') ∧ ∀ e ∈ es, e.isTrial = false := by
  induction fuel with
  | zero => intro p b es h; simp [Property.checkSingle] at h
  | succ f ih =>
    intro p b es h
    cases hm : m_u p with
    | true =>
      rw [checkSingle_accept A m_u f p hm] at h
      simp only [Option.some.injEq, Prod.mk.injEq] at h
      rw [← h.2]
      exact ⟨⟨[], rfl⟩, by simp [Event.isTrial]⟩
    | false =>
      by_cases hs : A.shrink p = []
      · rw [checkSingle_reject_leaf A m_u f p hm hs] at h
        simp only [Option.some.injEq, Prod.mk.injEq] at h
        rw [← h.2]
        exact ⟨⟨_, rfl⟩, by simp [Event.isTrial]⟩
      · rw [checkSingle_reject_node A m_u f p hm hs] at h
        cases ha : all_of (Property.checkSingle A m_u f) (A.shrink p) with
        | none => simp [ha] at h
        | some ra =>
          obtain ⟨b', es'⟩ := ra
          simp only [ha, Option.map_some', Option.some.injEq, Prod.mk.injEq] at h
          rw [← h.2]
          refine ⟨⟨_, rfl⟩, ?_⟩
          intro e he
          rcases List.mem_append.mp he with he | he
          · simp at he
            rcases he with rfl | rfl | rfl <;> rfl
          · exact all_of_events _ (fun e => e.isTrial = false) (A.shrink p)
              (fun x bx ex hx => (ih x bx ex hx).2) b' es' ha e he

end testinator

namespace testinator

/-- Candidates of any of the four sequence shrinkers are strictly shorter. -/
theorem sequence_shrink_length_lt {α : Type} (E : Arbitrary α) (A : Arbitrary (List α))
    (hA : IsSequenceArbitrary E A) (p c : List α) (hc : c ∈ A.shrink p) :
    c.length < p.length := by
  rcases hA with rfl | rfl | rfl | rfl
  · exact RandomSequence_shrink_length_lt p c hc
  · exact RandomSequence_shrink_length_lt p c hc
  · have hc' : c ∈ Arbitrary_list.shrink p := hc
    rw [list_shrink_eq] at hc'
    exact RandomSequence_shrink_length_lt p c hc'
  · have hc' : c ∈ Arbitrary_forward_list.shrink p := hc
    rw [forward_list_shrink_eq, List.mem_map] at hc'
    obtain ⟨y, hy, rfl⟩ := hc'
    simpa using RandomSequence_shrink_length_lt p y hy

/-- For any of the four sequence shrinkers, only the empty container has no candidate. -/
theorem sequence_shrink_eq_nil {α : Type} (E : Arbitrary α) (A : Arbitrary (List α))
    (hA : IsSequenceArbitrary E A) (p : List α) (h : A.shrink p = []) : p = [] := by
  rcases hA with rfl | rfl | rfl | rfl
  · exact RandomSequence_shrink_eq_nil p h
  · exact RandomSequence_shrink_eq_nil p h
  · have h' : Arbitrary_list.shrink p = [] := h
    rw [list_shrink_eq] at h'
    exact RandomSequence_shrink_eq_nil p h'
  · have h' : Arbitrary_forward_list.shrink p = [] := h
    rw [forward_list_shrink_eq, List.map_eq_nil_iff] at h'
    exact RandomSequence_shrink_eq_nil p h'

/-- Length of the container built by any of the four sequence generators. -/
theorem sequence_generate_length {α : Type} (E : Arbitrary α) (A : Arbitrary (List α))
    (hA : IsSequenceArbitrary E A) (level seed : Nat) (h : level < SIZE_MOD) :
    (A.generate level seed).length = (if level = 0 then 0 else 10 * (level / 100 + 1)) := by
  rcases hA with rfl | rfl | rfl | rfl
  · exact RandomSequence_generate_length E level seed h
  · exact RandomSequence_generate_length E level seed h
  · exact RandomSequence_generate_length E level seed h
  · show (Arbitrary_forward_list.generate E level seed).length = _
    have hrev : Arbitrary_forward_list.generate E level seed =
        (Arbitrary_RandomSequence.generate E level seed).reverse := by
      unfold Arbitrary_forward_list.generate Arbitrary_RandomSequence.generate
      split
      · rfl
      · rw [generate_n_front_eq_reverse, List.append_nil]
    rw [hrev, List.length_reverse]
    exact RandomSequence_generate_length E level seed h

theorem drawValues_append {α : Type} (a b : List (Event α)) :
    drawValues (a ++ b) = drawValues a ++ drawValues b := by
  induction a with
  | nil => rfl
  | cons e a ih => cases e <;> simp [drawValues, ih]

theorem generateArgs_append {α : Type} (a b : List (Event α)) :
    generateArgs (a ++ b) = generateArgs a ++ generateArgs b := by
  induction a with
  | nil => rfl
  | cons e a ih => cases e <;> simp [generateArgs, ih]

theorem evalValues_append {α : Type} (a b : List (Event α)) :
    evalValues (a ++ b) = evalValues a ++ evalValues b := by
  induction a with
  | nil => rfl
  | cons e a ih => cases e <;> simp [evalValues, ih]

/-- An event list without events of the loop of `check` has no draw, no call of
`generate` and no reproduction diagnostic. -/
theorem no_trial_events {α : Type} (es : List (Event α))
    (h : ∀ e ∈ es, e.isTrial = false) :
    drawValues es = [] ∧ generateArgs es = [] ∧ reproduceSeeds es = [] := by
  induction es with
  | nil => exact ⟨rfl, rfl, rfl⟩
  | cons e es ih =>
    obtain ⟨h1, h2, h3⟩ := ih (fun x hx => h x (List.mem_cons_of_mem e hx))
    have he := h e (List.mem_cons_self e es)
    cases e <;> simp [Event.isTrial] at he <;>
      simp [drawValues, generateArgs, reproduceSeeds, h1, h2, h3]

theorem length_rngDraws {σ : Type} (RNG : σ → Nat × σ) (k : Nat) (g : σ) :
    (rngDraws RNG k g).length = k := by
  induction k generalizing g with
  | zero => rfl
  | succ k ih => simp [rngDraws, ih]

/-- The seed of trial `0` is the given one; the seed of trial `i + 1` is draw `i`
converted to `unsigned long`. -/
theorem trialSeeds_succ_eq {σ : Type} (RNG : σ → Nat × σ) (k seed : Nat) (g : σ) :
    trialSeeds RNG (k + 1) seed g = seed :: (rngDraws RNG k g).map (fun r => r % ULONG_MOD) := by
  induction k generalizing seed g with
  | zero => rfl
  | succ k ih =>
    rw [trialSeeds, ih]
    rfl

theorem trialSeeds_take {σ : Type} (RNG : σ → Nat × σ) (n j seed : Nat) (g : σ)
    (h : j ≤ n) : (trialSeeds RNG n seed g).take j = trialSeeds RNG j seed g := by
  induction n generalizing j seed g with
  | zero =>
    have : j = 0 := by omega
    subst this
    rfl
  | succ n ih =>
    cases j with
    | zero => rfl
    | succ j =>
      simp only [trialSeeds, List.take_succ_cons]
      rw [ih j _ _ (by omega)]

/-- What the loop of `check` returns after a first trial that fails. -/
theorem checkLoop_succ_false {α σ : Type} (A : Arbitrary α) (m_u : α → Bool)
    (RNG : σ → Nat × σ) (fuel N k seed : Nat) (g : σ) (es : List (Event α))
    (hs : Property.checkSingle A m_u fuel (A.generate N seed) = some (false, es)) :
    Property.checkLoop A m_u RNG fuel N (k + 1) seed g =
      some (false, Event.generate N seed :: es ++ [Event.reproduce seed], g) := by
  simp only [Property.checkLoop, hs]

/-- What the loop of `check` returns after a first trial that passes. -/
theorem checkLoop_succ_true {α σ : Type} (A : Arbitrary α) (m_u : α → Bool)
    (RNG : σ → Nat × σ) (fuel N k seed : Nat) (g : σ) (es : List (Event α))
    (hs : Property.checkSingle A m_u fuel (A.generate N seed) = some (true, es)) :
    Property.checkLoop A m_u RNG fuel N (k + 1) seed g =
      (Property.checkLoop A m_u RNG fuel N k ((RNG g).1 % ULONG_MOD) (RNG g).2).map
        (fun r => (r.1, Event.generate N seed :: es ++ Event.draw (RNG g).1 :: r.2.1, r.2.2)) := by
  simp only [Property.checkLoop, hs]
  cases Property.checkLoop A m_u RNG fuel N k ((RNG g).1 % ULONG_MOD) (RNG g).2 with
  | none => rfl
  | some r => rfl

/-- The loop of `check` does not return when `checkSingle` does not. -/
theorem checkLoop_succ_none {α σ : Type} (A : Arbitrary α) (m_u : α → Bool)
    (RNG : σ → Nat × σ) (fuel N k seed : Nat) (g : σ)
    (hs : Property.checkSingle A m_u fuel (A.generate N seed) = none) :
    Property.checkLoop A m_u RNG fuel N (k + 1) seed g = none := by
  simp only [Property.checkLoop, hs]

/-- The loop of `check` returns when `checkSingle` returns on every generated value. -/
theorem checkLoop_total {α σ : Type} (A : Arbitrary α) (m_u : α → Bool)
    (RNG : σ → Nat × σ) (fuel N : Nat)
    (hsingle : ∀ s, ∃ r, Property.checkSingle A m_u fuel (A.generate N s) = some r) :
    ∀ (k seed : Nat) (g : σ), ∃ r, Property.checkLoop A m_u RNG fuel N k seed g = some r := by
  intro k
  induction k with
  | zero => intro seed g; exact ⟨_, rfl⟩
  | succ k ih =>
    intro seed g
    obtain ⟨⟨b, es⟩, hs⟩ := hsingle seed
    cases b with
    | false => exact ⟨_, checkLoop_succ_false A m_u RNG fuel N k seed g es hs⟩
    | true =>
      obtain ⟨r, hl⟩ := ih ((RNG g).1 % ULONG_MOD) (RNG g).2
      rw [checkLoop_succ_true A m_u RNG fuel N k seed g es hs, hl]
      exact ⟨_, rfl⟩

end testinator

namespace testinator

/-- The reproduction diagnostic in the events of the loop of `check`: absent when the
loop returns true; when it returns false, the events end with the call of `generate`
for the failing trial, the events of `checkSingle` on the generated value, and one
reproduction diagnostic with the seed of that call. -/
theorem checkLoop_reproduce {α σ : Type} (A : Arbitrary α) (m_u : α → Bool)
    (RNG : σ → Nat × σ) (fuel N : Nat) :
    ∀ (k seed : Nat) (g : σ) (b : Bool) (es : List (Event α)) (g' : σ),
      Property.checkLoop A m_u RNG fuel N k seed g = some (b, es, g') →
      (b = true → reproduceSeeds es = []) ∧
      (b = false → ∃ pre mid s,
        es = pre ++ Event.generate N s :: (mid ++ [Event.reproduce s]) ∧
        Property.checkSingle A m_u fuel (A.generate N s) = some (false, mid) ∧
        reproduceSeeds es = [s]) := by
  intro k
  induction k with
  | zero =>
    intro seed g b es g' h
    simp only [Property.checkLoop, Option.some.injEq, Prod.mk.injEq] at h
    obtain ⟨hb, he, _⟩ := h
    subst hb he
    exact ⟨fun _ => rfl, fun hb => by simp at hb⟩
  | succ k ih =>
    intro seed g b es g' h
    cases hs : Property.checkSingle A m_u fuel (A.generate N seed) with
    | none => rw [checkLoop_succ_none A m_u RNG fuel N k seed g hs] at h; simp at h
    | some r1 =>
      obtain ⟨b1, es1⟩ := r1
      have hno := no_trial_events es1 (checkSingle_events A m_u fuel _ _ _ hs).2
      cases b1 with
      | false =>
        rw [checkLoop_succ_false A m_u RNG fuel N k seed g es1 hs] at h
        simp only [Option.some.injEq, Prod.mk.injEq] at h
        obtain ⟨hb, he, _⟩ := h
        subst hb he
        refine ⟨fun hb => by simp at hb, fun _ => ⟨[], es1, seed, rfl, hs, ?_⟩⟩
        show reproduceSeeds (es1 ++ [Event.reproduce seed]) = [seed]
        rw [reproduceSeeds_append, hno.2.2]
        rfl
      | true =>
        rw [checkLoop_succ_true A m_u RNG fuel N k seed g es1 hs] at h
        cases hl : Property.checkLoop A m_u RNG fuel N k ((RNG g).1 % ULONG_MOD) (RNG g).2 with
        | none => rw [hl] at h; simp at h
        | some r2 =>
          obtain ⟨b2, es2, g2⟩ := r2
          rw [hl] at h
          simp only [Option.map_some', Option.some.injEq, Prod.mk.injEq] at h
          obtain ⟨hb, he, _⟩ := h
          subst hb he
          obtain ⟨ht, hf⟩ := ih _ _ _ _ _ hl
          have hrep : reproduceSeeds (Event.generate N seed :: es1 ++
              Event.draw (RNG g).1 :: es2) = reproduceSeeds es2 := by
            show reproduceSeeds (es1 ++ Event.draw (RNG g).1 :: es2) = reproduceSeeds es2
            rw [reproduceSeeds_append, hno.2.2]
            rfl
          refine ⟨fun hb => by rw [hrep]; exact ht hb, fun hb => ?_⟩
          obtain ⟨pre, mid, s, hes, hmid, hseeds⟩ := hf hb
          refine ⟨Event.generate N seed :: es1 ++ Event.draw (RNG g).1 :: pre, mid, s, ?_,
            hmid, ?_⟩
          · rw [hes]
            simp
          · rw [hrep]
            exact hseeds

/-- C11: `check(N, reporter)` returns once the depth bound exceeds the measure of the
generated values; when it returns true it emits no reproduction diagnostic; when it
returns false it emits exactly one, as its last event, and the seed it carries is the
seed of the last call of `generate`, the one of the failing trial. -/
theorem check_reproduce_once {α σ : Type} (A : Arbitrary α) (m_u : α → Bool)
    (RNG : σ → Nat × σ) (size : α → Nat)
    (hsize : ∀ p c, c ∈ A.shrink p → size c < size p) (fuel N seed : Nat) (g : σ)
    (hfuel : ∀ s, size (A.generate N s) < fuel) :
    ∃ b es g', Property.check A m_u RNG fuel N seed g = some (b, es, g') ∧
      (b = true → reproduceSeeds es = []) ∧
      (b = false → ∃ pre mid s,
        es = pre ++ Event.generate N s :: (mid ++ [Event.reproduce s]) ∧
        Property.checkSingle A m_u fuel (A.generate N s) = some (false, mid) ∧
        reproduceSeeds es = [s] ∧ es.getLast? = some (Event.reproduce s) ∧
        (generateArgs es).getLast? = some (N, s)) := by
  obtain ⟨⟨b, es, g'⟩, hr⟩ := checkLoop_total A m_u RNG fuel N
    (fun s => checkSingle_total A m_u size hsize _ _ fuel (Nat.le_refl _) (hfuel s)) N seed g
  obtain ⟨ht, hf⟩ := checkLoop_reproduce A m_u RNG fuel N N seed g b es g' hr
  refine ⟨b, es, g', hr, ht, fun hb => ?_⟩
  obtain ⟨pre, mid, s, hes, hmid, hseeds⟩ := hf hb
  have hno := no_trial_events mid (checkSingle_events A m_u fuel _ _ _ hmid).2
  refine ⟨pre, mid, s, hes, hmid, hseeds, ?_, ?_⟩
  · have hlast : es = (pre ++ Event.generate N s :: mid) ++ [Event.reproduce s] := by
      rw [hes]
      simp
    rw [hlast, List.getLast?_append]
    rfl
  · rw [hes, generateArgs_append]
    show (generateArgs pre ++ (N, s) :: generateArgs (mid ++ [Event.reproduce s])).getLast? = _
    rw [generateArgs_append, hno.2.1]
    simp [generateArgs]

/-- Witness for `check_reproduce_once`: a vector property checked five times. -/
theorem check_reproduce_once_witness :
    ∃ b es g', Property.check (Arbitrary_vector seedElement) nonEmptyAtMostTwenty countingRNG
        11 5 0 0 = some (b, es, g') ∧
      (b = true → reproduceSeeds es = []) ∧
      (b = false → ∃ pre mid s,
        es = pre ++ Event.generate 5 s :: (mid ++ [Event.reproduce s]) ∧
        Property.checkSingle (Arbitrary_vector seedElement) nonEmptyAtMostTwenty 11
          ((Arbitrary_vector seedElement).generate 5 s) = some (false, mid) ∧
        reproduceSeeds es = [s] ∧ es.getLast? = some (Event.reproduce s) ∧
        (generateArgs es).getLast? = some (5, s)) :=
  check_reproduce_once (Arbitrary_vector seedElement) nonEmptyAtMostTwenty countingRNG
    List.length (fun p c hc => RandomSequence_shrink_length_lt p c hc) 11 5 0 0
    (fun s => by
      show (Arbitrary_RandomSequence.generate seedElement 5 s).length < 11
      rw [RandomSequence_generate_length seedElement 5 s (by decide)]
      decide)

end testinator

namespace testinator

/-- The elements appended by the `generate_n` lambda, started from an in-range seed. -/
theorem generate_n_back_generate_nLambda {α : Type} (E : Arbitrary α) (n m s : Nat) :
    generate_n_back (generate_nLambda E n) m (s % ULONG_MOD) [] =
      (List.range m).map (fun i => E.generate_n n ((s + i) % ULONG_MOD)) := by
  induction m generalizing s with
  | zero => simp [generate_n_back]
  | succ m ih =>
    simp only [generate_n_back]
    rw [generate_n_back_append]
    have hstep : (generate_nLambda E n (s % ULONG_MOD)).2 = (s + 1) % ULONG_MOD := by
      simp [generate_nLambda, Nat.add_mod]
    rw [hstep, ih (s + 1), List.range_succ_eq_map]
    simp [generate_nLambda, List.map_map, Function.comp_def, Nat.add_assoc, Nat.add_comm 1]

/-- C12: for a seed in the range of `unsigned long`, `generate_n(n, seed)` has exactly
`n` elements for the vector/deque, list and forward_list generators; the element at
index `i` of the vector/deque and of the list is `Arbitrary<V>::generate_n(n, seed + i)`,
the sum taken in `unsigned long` (the plain sum where it does not leave the type); the
forward_list holds the same elements in reverse order. -/
theorem generate_n_elements {α : Type} (E : Arbitrary α) (n seed : Nat)
    (hs : seed < ULONG_MOD) :
    (Arbitrary_RandomSequence.generate_n E n seed).length = n ∧
    (Arbitrary_list.generate_n E n seed).length = n ∧
    (Arbitrary_forward_list.generate_n E n seed).length = n ∧
    (∀ i, i < n →
      (Arbitrary_RandomSequence.generate_n E n seed)[i]? =
          some (E.generate_n n ((seed + i) % ULONG_MOD)) ∧
      (Arbitrary_list.generate_n E n seed)[i]? =
          some (E.generate_n n ((seed + i) % ULONG_MOD)) ∧
      (seed + i < ULONG_MOD →
        (Arbitrary_RandomSequence.generate_n E n seed)[i]? =
            some (E.generate_n n (seed + i)) ∧
        (Arbitrary_list.generate_n E n seed)[i]? = some (E.generate_n n (seed + i)))) ∧
    Arbitrary_forward_list.generate_n E n seed =
      (Arbitrary_list.generate_n E n seed).reverse := by
  have hmap : Arbitrary_RandomSequence.generate_n E n seed =
      (List.range n).map (fun i => E.generate_n n ((seed + i) % ULONG_MOD)) := by
    have h := generate_n_back_generate_nLambda E n n seed
    rwa [Nat.mod_eq_of_lt hs] at h
  have hlist : Arbitrary_list.generate_n E n seed =
      Arbitrary_RandomSequence.generate_n E n seed := rfl
  have hrev : Arbitrary_forward_list.generate_n E n seed =
      (Arbitrary_list.generate_n E n seed).reverse := by
    unfold Arbitrary_forward_list.generate_n Arbitrary_list.generate_n
    rw [generate_n_front_eq_reverse, List.append_nil]
  have hlen : (Arbitrary_RandomSequence.generate_n E n seed).length = n := by
    rw [hmap]
    simp
  have hget : ∀ i, i < n → (Arbitrary_RandomSequence.generate_n E n seed)[i]? =
      some (E.generate_n n ((seed + i) % ULONG_MOD)) := by
    intro i hi
    rw [hmap, List.getElem?_map, List.getElem?_range hi]
    rfl
  refine ⟨hlen, by rw [hlist]; exact hlen, by rw [hrev, List.length_reverse, hlist]; exact hlen,
    ?_, hrev⟩
  intro i hi
  refine ⟨hget i hi, by rw [hlist]; exact hget i hi, ?_⟩
  intro hlt
  rw [hlist, hget i hi, Nat.mod_eq_of_lt hlt]
  exact ⟨rfl, rfl⟩

/-- Witness for `generate_n_elements`: three elements from the seed `2 ^ 64 - 1`,
where the seed counter wraps to `0` after the first element. -/
theorem generate_n_elements_witness :
    18446744073709551615 < ULONG_MOD ∧
    Arbitrary_RandomSequence.generate_n seedElement 3 18446744073709551615 =
      [18446744073709551615, 0, 1] ∧
    Arbitrary_forward_list.generate_n seedElement 3 18446744073709551615 =
      [1, 0, 18446744073709551615] ∧
    (Arbitrary_RandomSequence.generate_n seedElement 3 18446744073709551615).length = 3 :=
  ⟨by decide, by decide, by decide,
    (generate_n_elements seedElement 3 18446744073709551615 (by decide)).1⟩

end testinator

/-! ## Claims on the property test fixture -/

namespace testinator

/-- C13, as stated, fails when the entropy source returns `0`: with the run-parameter
seed `0`, `Setup` makes the drawn `0` the active seed and seeds the registry generator
with it. -/
theorem Setup_entropy_zero_counterexample :
    (PropertyTest.Setup (fun s => s) 0 { m_numPropertyChecks := 100, m_randomSeed := 0 })
      = (true, { m_numChecks := 100, m_randomSeed := 0 }, 0) ∧
    ¬ ((PropertyTest.Setup (fun s => s) 0
        { m_numPropertyChecks := 100, m_randomSeed := 0 }).2.1.m_randomSeed ≠ 0) := by
  constructor
  · rfl
  · intro h
    exact h rfl

/-- C13 (amended): for every value `rd` the entropy source can return, when the
run-parameter seed is `0`, `Setup` makes `rd` the active seed `m_randomSeed` and seeds
the registry generator with it; the active seed is not `0` whenever `rd` is not `0`. -/
theorem Setup_zero_seed_uses_entropy {σ : Type} (seedRNG : Nat → σ) (rd : Nat)
    (params : RunParams) (h0 : params.m_randomSeed = 0) :
    (PropertyTest.Setup seedRNG rd params).1 = true ∧
    (PropertyTest.Setup seedRNG rd params).2.1.m_randomSeed = rd ∧
    (PropertyTest.Setup seedRNG rd params).2.1.m_numChecks = params.m_numPropertyChecks ∧
    (PropertyTest.Setup seedRNG rd params).2.2 = seedRNG rd ∧
    (rd ≠ 0 → (PropertyTest.Setup seedRNG rd params).2.1.m_randomSeed ≠ 0) := by
  have hseed : (PropertyTest.Setup seedRNG rd params).2.1.m_randomSeed = rd := by
    simp [PropertyTest.Setup, h0]
  refine ⟨rfl, hseed, rfl, ?_, ?_⟩
  · simp [PropertyTest.Setup, h0]
  · intro hne
    rw [hseed]
    exact hne

/-- Witness for `Setup_zero_seed_uses_entropy`: the entropy source returns `42`. -/
theorem Setup_zero_seed_uses_entropy_witness :
    ({ m_numPropertyChecks := 100, m_randomSeed := 0 } : RunParams).m_randomSeed = 0 ∧
    (PropertyTest.Setup (fun s => s) 42
      { m_numPropertyChecks := 100, m_randomSeed := 0 }).2.1.m_randomSeed = 42 :=
  ⟨rfl,
    (Setup_zero_seed_uses_entropy (fun s => s) 42
      { m_numPropertyChecks := 100, m_randomSeed := 0 } rfl).2.1⟩

end testinator

namespace testinator

/-- When `checkSingle` returns false, the predicate rejects some value that has no
shrink candidates. -/
theorem checkSingle_false_leaf {α : Type} (A : Arbitrary α) (m_u : α → Bool) (fuel : Nat) :
    ∀ p es, Property.checkSingle A m_u fuel p = some (false, es) →
      ∃ q, A.shrink q = [] ∧ m_u q = false := by
  induction fuel with
  | zero => intro p es h; simp [Property.checkSingle] at h
  | succ f ih =>
    intro p es h
    cases hm : m_u p with
    | true =>
      rw [checkSingle_accept A m_u f p hm] at h
      simp at h
    | false =>
      by_cases hs : A.shrink p = []
      · exact ⟨p, hs, hm⟩
      · rw [checkSingle_reject_node A m_u f p hm hs] at h
        cases ha : all_of (Property.checkSingle A m_u f) (A.shrink p) with
        | none => simp [ha] at h
        | some ra =>
          obtain ⟨b', es'⟩ := ra
          simp only [ha, Option.map_some', Option.some.injEq, Prod.mk.injEq] at h
          obtain ⟨hb, _⟩ := h
          subst hb
          obtain ⟨x, _, ex, hx⟩ := all_of_false _ _ es' ha
          exact ih x ex hx

/-- The generated sequence container is shorter than any depth bound above the element
count of the level. -/
theorem sequence_generate_length_lt {α : Type} (E : Arbitrary α) (A : Arbitrary (List α))
    (hA : IsSequenceArbitrary E A) (fuel N : Nat) (hN : N < SIZE_MOD)
    (hfuel : 10 * (N / 100 + 1) < fuel) (s : Nat) : (A.generate N s).length < fuel := by
  rw [sequence_generate_length E A hA N s hN]
  split <;> omega

/-! ## Further claims on the property runner -/

/-- C14: over any of the four sequence containers, `check(N, reporter)` returns once
the depth bound exceeds the size of the generated containers; if it returns false the
predicate rejects the empty container, and a predicate that accepts the empty
container makes it return true. -/
theorem check_false_only_if_empty_rejected {α σ : Type} (E : Arbitrary α)
    (A : Arbitrary (List α)) (hA : IsSequenceArbitrary E A) (m_u : List α → Bool)
    (RNG : σ → Nat × σ) (fuel N seed : Nat) (g : σ) (hN : N < SIZE_MOD)
    (hfuel : 10 * (N / 100 + 1) < fuel) :
    ∃ b es g', Property.check A m_u RNG fuel N seed g = some (b, es, g') ∧
      (b = false → m_u [] = false) ∧ (m_u [] = true → b = true) := by
  obtain ⟨⟨b, es, g'⟩, hr⟩ := checkLoop_total A m_u RNG fuel N
    (fun s => checkSingle_total A m_u List.length (sequence_shrink_length_lt E A hA) _ _ fuel
      (Nat.le_refl _) (sequence_generate_length_lt E A hA fuel N hN hfuel s)) N seed g
  have hfalse : b = false → m_u [] = false := by
    intro hb
    obtain ⟨_, mid, s, _, hmid, _⟩ := (checkLoop_reproduce A m_u RNG fuel N N seed g b es g' hr).2 hb
    obtain ⟨q, hq, hmq⟩ := checkSingle_false_leaf A m_u fuel _ mid hmid
    rw [sequence_shrink_eq_nil E A hA q hq] at hmq
    exact hmq
  refine ⟨b, es, g', hr, hfalse, ?_⟩
  intro he
  cases b with
  | true => rfl
  | false => rw [hfalse rfl] at he; simp at he

/-- Witness for `check_false_only_if_empty_rejected`: the vector predicate that rejects
exactly the vectors of ten elements accepts the empty vector. -/
theorem check_false_only_if_empty_rejected_witness :
    (IsSequenceArbitrary seedElement (Arbitrary_vector seedElement) ∧ 1 < SIZE_MOD ∧
      10 * (1 / 100 + 1) < 11 ∧ sizeIsNotTen ([] : List Nat) = true) ∧
    ∃ b es g', Property.check (Arbitrary_vector seedElement) sizeIsNotTen constantRNG
        11 1 0 () = some (b, es, g') ∧
      (b = false → sizeIsNotTen ([] : List Nat) = false) ∧
      (sizeIsNotTen ([] : List Nat) = true → b = true) :=
  ⟨⟨Or.inl rfl, by decide, by decide, by decide⟩,
    check_false_only_if_empty_rejected seedElement (Arbitrary_vector seedElement) (Or.inl rfl)
      sizeIsNotTen constantRNG 11 1 0 () (by decide) (by decide)⟩

end testinator

namespace testinator

/-- C15: over any of the four sequence containers and for every predicate,
`checkSingle(p, reporter)` terminates: every shrink candidate is strictly shorter than
its parent, the empty container has no candidate, and the call returns one and the
same result for every depth bound above the size of `p`. -/
theorem checkSingle_terminates {α : Type} (E : Arbitrary α) (A : Arbitrary (List α))
    (hA : IsSequenceArbitrary E A) (m_u : List α → Bool) (p : List α) :
    (∀ q c, c ∈ A.shrink q → c.length < q.length) ∧ A.shrink [] = [] ∧
    ∃ r, ∀ fuel, p.length < fuel → Property.checkSingle A m_u fuel p = some r := by
  refine ⟨sequence_shrink_length_lt E A hA, ?_, ?_⟩
  · rcases hA with rfl | rfl | rfl | rfl <;> rfl
  · obtain ⟨r, hr⟩ := checkSingle_total A m_u List.length (sequence_shrink_length_lt E A hA)
      p.length p (p.length + 1) (Nat.le_refl _) (Nat.lt_succ_self _)
    exact ⟨r, fun fuel hf => checkSingle_fuel_le A m_u (p.length + 1) fuel hf p r hr⟩

/-- Witness for `checkSingle_terminates`: a forward_list of three elements under a
predicate that rejects every list. -/
theorem checkSingle_terminates_witness :
    IsSequenceArbitrary seedElement (Arbitrary_forward_list.arbitrary seedElement) ∧
    Property.checkSingle (Arbitrary_forward_list.arbitrary seedElement) (fun _ => false) 4
      [1, 2, 3] =
        some (false, [Event.eval [1, 2, 3], Event.failed [1, 2, 3], Event.shrink [1, 2, 3],
          Event.eval [1], Event.failed [1], Event.shrink [1],
          Event.eval [], Event.failed [], Event.shrink []]) ∧
    ∃ r, ∀ fuel, [1, 2, 3].length < fuel →
      Property.checkSingle (Arbitrary_forward_list.arbitrary seedElement) (fun _ => false)
        fuel [1, 2, 3] = some r :=
  ⟨Or.inr (Or.inr (Or.inr rfl)), by decide,
    (checkSingle_terminates seedElement (Arbitrary_forward_list.arbitrary seedElement)
      (Or.inr (Or.inr (Or.inr rfl))) (fun _ => false) [1, 2, 3]).2.2⟩

/-- C17: for a forward_list `t` of size `s ≥ 1` and `l = s / 2`, the first candidate of
`shrink(t)` is the first `l` elements of `t` reversed; when `l > 0` the second is the
remaining elements reversed; and when `s > 1`, reversing each candidate and
concatenating them in order gives back `t`. -/
theorem forward_list_shrink_halves {α : Type} (t : List α) (h : 1 ≤ t.length) :
    (Arbitrary_forward_list.shrink t)[0]? = some (t.take (t.length / 2)).reverse ∧
    (0 < t.length / 2 →
      (Arbitrary_forward_list.shrink t)[1]? = some (t.drop (t.length / 2)).reverse ∧
      (t.drop (t.length / 2)).length = t.length - t.length / 2) ∧
    (1 < t.length →
      ((Arbitrary_forward_list.shrink t).map List.reverse).flatten = t) := by
  rw [forward_list_shrink_eq, RandomSequence_shrink_cases]
  by_cases h1 : t.length = 1
  · have hl : t.length / 2 = 0 := by omega
    simp [h1, hl]
  · have h0 : t.length ≠ 0 := by omega
    simp [h0, h1, Function.comp_def]

/-- Witness for `forward_list_shrink_halves`: a forward_list of five elements. -/
theorem forward_list_shrink_halves_witness :
    1 ≤ [1, 2, 3, 4, 5].length ∧
    Arbitrary_forward_list.shrink [1, 2, 3, 4, 5] = [[2, 1], [5, 4, 3]] ∧
    (Arbitrary_forward_list.shrink [1, 2, 3, 4, 5])[0]? =
      some ([1, 2, 3, 4, 5].take ([1, 2, 3, 4, 5].length / 2)).reverse :=
  ⟨by decide, by decide, (forward_list_shrink_halves [1, 2, 3, 4, 5] (by decide)).1⟩

end testinator

namespace testinator

/-- The chain of halved lengths of a one-element vector is the vector alone. -/
theorem halving_chain_one {α : Type} (c : List α) (h : c.length = 1) :
    (List.range (Nat.log 2 c.length + 1)).map (fun k => c.take (c.length / 2 ^ k)) = [c] := by
  rw [h]
  have hc : c.take 1 = c := by
    rw [← h]
    exact List.take_length c
  simp [List.range_succ, hc]

/-- The chain of halved lengths of a vector of two elements or more is the vector
followed by the chain of its first half. -/
theorem halving_chain_step {α : Type} (c : List α) (h : 2 ≤ c.length) :
    (List.range (Nat.log 2 c.length + 1)).map (fun k => c.take (c.length / 2 ^ k)) =
      c :: (List.range (Nat.log 2 (c.take (c.length / 2)).length + 1)).map
        (fun k => (c.take (c.length / 2)).take ((c.take (c.length / 2)).length / 2 ^ k)) := by
  have hlen : (c.take (c.length / 2)).length = c.length / 2 := by
    rw [List.length_take]
    omega
  rw [hlen, Nat.log_of_one_lt_of_le (by decide) h, List.range_succ_eq_map, List.map_cons,
    List.map_map]
  congr 1
  · simp
  · apply List.map_congr_left
    intro k _
    have hdiv : c.length / 2 ^ (k + 1) = c.length / 2 / 2 ^ k := by
      rw [Nat.div_div_eq_div_mul, pow_succ']
    have hle : c.length / 2 / 2 ^ k ≤ c.length / 2 := Nat.div_le_self _ _
    simp only [Function.comp_apply, Nat.succ_eq_add_one, hdiv, List.take_take]
    rw [Nat.min_eq_left hle]

/-- Under a predicate that rejects every vector, `checkSingle` on a non-empty vector
evaluates and reports as failed exactly the vector, its first parts of the halved
lengths, and the empty vector. -/
theorem checkSingle_reject_all_chain {α : Type} (E : Arbitrary α) (m_u : List α → Bool)
    (hm : ∀ v, m_u v = false) (n : Nat) :
    ∀ (c : List α) (fuel : Nat), c.length ≤ n → 1 ≤ c.length → c.length < fuel →
      ∃ es, Property.checkSingle (Arbitrary_vector E) m_u fuel c = some (false, es) ∧
        failedValues es =
          (List.range (Nat.log 2 c.length + 1)).map (fun k => c.take (c.length / 2 ^ k))
            ++ [[]] ∧
        evalValues es = failedValues es := by
  induction n with
  | zero => intro c fuel h0 h1 _; omega
  | succ n ih =>
    intro c fuel hn h1 hf
    obtain ⟨f, rfl⟩ : ∃ f, fuel = f + 1 := ⟨fuel - 1, by omega⟩
    have hshrink := RandomSequence_shrink_cases c
    rw [if_neg (by omega)] at hshrink
    by_cases hone : c.length = 1
    · rw [if_pos hone] at hshrink
      obtain ⟨f', rfl⟩ : ∃ f', f = f' + 1 := ⟨f - 1, by omega⟩
      have hleaf := checkSingle_reject_leaf (Arbitrary_vector E) m_u f' [] (hm [])
        (by rfl)
      refine ⟨[Event.eval c, Event.failed c, Event.shrink c,
        Event.eval [], Event.failed [], Event.shrink []], ?_, ?_, ?_⟩
      · rw [checkSingle_reject_node (Arbitrary_vector E) m_u (f' + 1) c (hm c)
          (by show Arbitrary_RandomSequence.shrink c ≠ []; rw [hshrink]; simp)]
        show Option.map _ (all_of _ (Arbitrary_RandomSequence.shrink c)) = _
        rw [hshrink]
        simp [all_of, hleaf]
      · rw [halving_chain_one c hone]
        rfl
      · rfl
    · rw [if_neg hone] at hshrink
      have hlen : (c.take (c.length / 2)).length = c.length / 2 := by
        rw [List.length_take]
        omega
      obtain ⟨es1, hes1, hfail1, heval1⟩ := ih (c.take (c.length / 2)) f
        (by rw [hlen]; omega) (by rw [hlen]; omega) (by rw [hlen]; omega)
      refine ⟨[Event.eval c, Event.failed c, Event.shrink c] ++ es1, ?_, ?_, ?_⟩
      · rw [checkSingle_reject_node (Arbitrary_vector E) m_u f c (hm c)
          (by show Arbitrary_RandomSequence.shrink c ≠ []; rw [hshrink]; simp)]
        show Option.map _ (all_of _ (Arbitrary_RandomSequence.shrink c)) = _
        rw [hshrink]
        simp [all_of, hes1]
      · rw [failedValues_append, hfail1, halving_chain_step c (by omega)]
        rfl
      · rw [failedValues_append, evalValues_append, heval1]
        rfl

/-- C16: for a predicate that rejects every value and a vector `c` of size `s ≥ 1`,
`checkSingle(c, reporter)` returns false and reports `log2 s + 2` values as failed:
`c`, then the first `s / 2`, `s / 4`, ..., `1` and `0` elements of `c`, in that order;
these are also the only values the predicate is called on, so no second half is ever
evaluated. -/
theorem checkSingle_reject_all_failed_values {α : Type} (E : Arbitrary α)
    (m_u : List α → Bool) (c : List α) (fuel : Nat) (hm : ∀ v, m_u v = false)
    (hs : 1 ≤ c.length) (hfuel : c.length < fuel) :
    ∃ es, Property.checkSingle (Arbitrary_vector E) m_u fuel c = some (false, es) ∧
      failedValues es =
        (List.range (Nat.log 2 c.length + 1)).map (fun k => c.take (c.length / 2 ^ k))
          ++ [[]] ∧
      (failedValues es).length = Nat.log 2 c.length + 2 ∧
      evalValues es = failedValues es := by
  obtain ⟨es, hes, hfail, heval⟩ :=
    checkSingle_reject_all_chain E m_u hm c.length c fuel (Nat.le_refl _) hs hfuel
  refine ⟨es, hes, hfail, ?_, heval⟩
  rw [hfail]
  simp

/-- Witness for `checkSingle_reject_all_failed_values`: a vector of ten elements. -/
theorem checkSingle_reject_all_failed_values_witness :
    failedValues
        ((Property.checkSingle (Arbitrary_vector seedElement) (fun _ => false) 11
          [0, 1, 2, 3, 4, 5, 6, 7, 8, 9]).getD (true, [])).2 =
      [[0, 1, 2, 3, 4, 5, 6, 7, 8, 9], [0, 1, 2, 3, 4], [0, 1], [0], []] ∧
    ∃ es, Property.checkSingle (Arbitrary_vector seedElement) (fun _ => false) 11
        [0, 1, 2, 3, 4, 5, 6, 7, 8, 9] = some (false, es) ∧
      failedValues es =
        (List.range (Nat.log 2 [0, 1, 2, 3, 4, 5, 6, 7, 8, 9].length + 1)).map
            (fun k => [0, 1, 2, 3, 4, 5, 6, 7, 8, 9].take
              ([0, 1, 2, 3, 4, 5, 6, 7, 8, 9].length / 2 ^ k))
          ++ [[]] ∧
      (failedValues es).length = Nat.log 2 [0, 1, 2, 3, 4, 5, 6, 7, 8, 9].length + 2 ∧
      evalValues es = failedValues es :=
  ⟨by decide,
    checkSingle_reject_all_failed_values seedElement (fun _ => false)
      [0, 1, 2, 3, 4, 5, 6, 7, 8, 9] 11 (fun _ => rfl) (by decide) (by decide)⟩

end testinator

namespace testinator

/-- The draws and the seeds of the loop of `check`: the loop draws once after each
passing trial, trial `j` generates with seed `j` of `trialSeeds`, and the loop stops
at the first trial on which `checkSingle` returns false. -/
theorem checkLoop_draws {α σ : Type} (A : Arbitrary α) (m_u : α → Bool)
    (RNG : σ → Nat × σ) (fuel N : Nat) :
    ∀ (k seed : Nat) (g : σ) (b : Bool) (es : List (Event α)) (g' : σ),
      Property.checkLoop A m_u RNG fuel N k seed g = some (b, es, g') →
      ∃ m, drawValues es = rngDraws RNG m g ∧ g' = rngState RNG m g ∧
        generateArgs es =
          (trialSeeds RNG (if b then k else m + 1) seed g).map (fun s => (N, s)) ∧
        (b = true → m = k) ∧ (b = false → m < k) ∧
        (∀ s ∈ trialSeeds RNG m seed g,
          ∃ e, Property.checkSingle A m_u fuel (A.generate N s) = some (true, e)) ∧
        (b = false → ∃ s e, (trialSeeds RNG k seed g)[m]? = some s ∧
          Property.checkSingle A m_u fuel (A.generate N s) = some (false, e)) := by
  intro k
  induction k with
  | zero =>
    intro seed g b es g' h
    simp only [Property.checkLoop, Option.some.injEq, Prod.mk.injEq] at h
    obtain ⟨hb, he, hg⟩ := h
    subst hb he hg
    exact ⟨0, rfl, rfl, rfl, fun _ => rfl, fun hb => by simp at hb,
      fun s hs => by simp [trialSeeds] at hs, fun hb => by simp at hb⟩
  | succ k ih =>
    intro seed g b es g' h
    cases hs : Property.checkSingle A m_u fuel (A.generate N seed) with
    | none => rw [checkLoop_succ_none A m_u RNG fuel N k seed g hs] at h; simp at h
    | some r1 =>
      obtain ⟨b1, es1⟩ := r1
      have hno := no_trial_events es1 (checkSingle_events A m_u fuel _ _ _ hs).2
      cases b1 with
      | false =>
        rw [checkLoop_succ_false A m_u RNG fuel N k seed g es1 hs] at h
        simp only [Option.some.injEq, Prod.mk.injEq] at h
        obtain ⟨hb, he, hg⟩ := h
        subst hb he hg
        refine ⟨0, ?_, rfl, ?_, fun hb => by simp at hb, fun _ => by omega,
          fun s hs => by simp [trialSeeds] at hs,
          fun _ => ⟨seed, es1, by simp [trialSeeds], hs⟩⟩
        · show drawValues (es1 ++ [Event.reproduce seed]) = []
          rw [drawValues_append, hno.1]
          rfl
        · show (N, seed) :: generateArgs (es1 ++ [Event.reproduce seed]) = _
          rw [generateArgs_append, hno.2.1]
          rfl
      | true =>
        rw [checkLoop_succ_true A m_u RNG fuel N k seed g es1 hs] at h
        cases hl : Property.checkLoop A m_u RNG fuel N k ((RNG g).1 % ULONG_MOD) (RNG g).2 with
        | none => rw [hl] at h; simp at h
        | some r2 =>
          obtain ⟨b2, es2, g2⟩ := r2
          rw [hl] at h
          simp only [Option.map_some', Option.some.injEq, Prod.mk.injEq] at h
          obtain ⟨hb, he, hg⟩ := h
          subst hb he hg
          obtain ⟨m, hdraw, hstate, hgen, ht, hf, hpass, hfail⟩ := ih _ _ _ _ _ hl
          refine ⟨m + 1, ?_, hstate, ?_, fun hb => by rw [ht hb],
            fun hb => by have := hf hb; omega, ?_, ?_⟩
          · show drawValues (es1 ++ Event.draw (RNG g).1 :: es2) = _
            rw [drawValues_append, hno.1]
            show (RNG g).1 :: drawValues es2 = _
            rw [hdraw]
            rfl
          · show (N, seed) :: generateArgs (es1 ++ Event.draw (RNG g).1 :: es2) = _
            rw [generateArgs_append, hno.2.1]
            show (N, seed) :: generateArgs es2 = _
            rw [hgen]
            cases b2 <;> rfl
          · intro s hmem
            simp only [trialSeeds, List.mem_cons] at hmem
            rcases hmem with rfl | hmem
            · exact ⟨es1, hs⟩
            · exact hpass s hmem
          · intro hb
            obtain ⟨s, e, hget, he⟩ := hfail hb
            exact ⟨s, e, by simpa [trialSeeds] using hget, he⟩

/-- C18: `check(N, reporter)` returns once the depth bound exceeds the measure of the
generated values. Trial `0` generates with the property's seed and trial `i ≥ 1` with
draw `i` of the registry generator; the generator is drawn once after each passing
trial and never otherwise: `m` draws are made, `m = N` when `check` returns true, and
when it returns false `m < N` is the first failing trial, after which no value is
generated. -/
theorem check_draws_per_passing_trial {α σ : Type} (A : Arbitrary α) (m_u : α → Bool)
    (RNG : σ → Nat × σ) (size : α → Nat)
    (hsize : ∀ p c, c ∈ A.shrink p → size c < size p) (fuel N seed : Nat) (g : σ)
    (hfuel : ∀ s, size (A.generate N s) < fuel) :
    ∃ b es g' m, Property.check A m_u RNG fuel N seed g = some (b, es, g') ∧
      drawValues es = rngDraws RNG m g ∧ (drawValues es).length = m ∧
      g' = rngState RNG m g ∧
      generateArgs es =
        ((seed :: (drawValues es).map (fun r => r % ULONG_MOD)).take
          (if b then N else m + 1)).map (fun s => (N, s)) ∧
      (generateArgs es).length = (if b then N else m + 1) ∧
      (b = true → m = N) ∧ (b = false → m < N) ∧
      (∀ s ∈ trialSeeds RNG m seed g,
        ∃ e, Property.checkSingle A m_u fuel (A.generate N s) = some (true, e)) ∧
      (b = false → ∃ s e, (trialSeeds RNG N seed g)[m]? = some s ∧
        Property.checkSingle A m_u fuel (A.generate N s) = some (false, e)) := by
  obtain ⟨⟨b, es, g'⟩, hr⟩ := checkLoop_total A m_u RNG fuel N
    (fun s => checkSingle_total A m_u size hsize _ _ fuel (Nat.le_refl _) (hfuel s)) N seed g
  obtain ⟨m, hdraw, hstate, hgen, ht, hf, hpass, hfail⟩ :=
    checkLoop_draws A m_u RNG fuel N N seed g b es g' hr
  have hseeds : trialSeeds RNG (if b then N else m + 1) seed g =
      (seed :: (drawValues es).map (fun r => r % ULONG_MOD)).take
        (if b then N else m + 1) := by
    rw [hdraw, ← trialSeeds_succ_eq]
    cases b with
    | true =>
      rw [ht rfl]
      exact (trialSeeds_take RNG (N + 1) N seed g (Nat.le_succ N)).symm
    | false =>
      exact (trialSeeds_take RNG (m + 1) (m + 1) seed g (Nat.le_refl _)).symm
  have hlenSeeds : ∀ n s (g0 : σ), (trialSeeds RNG n s g0).length = n := by
    intro n
    induction n with
    | zero => intro s g0; rfl
    | succ n ihn => intro s g0; simp [trialSeeds, ihn]
  refine ⟨b, es, g', m, hr, hdraw, by rw [hdraw, length_rngDraws], hstate,
    by rw [hgen, hseeds], by rw [hgen, List.length_map, hlenSeeds], ht, hf, hpass, hfail⟩

/-- Witness for `check_draws_per_passing_trial`: five trials of a vector property whose
trial `3` is the first to fail, after three draws. -/
theorem check_draws_per_passing_trial_witness :
    (Property.check (Arbitrary_vector seedElement) nonEmptyAtMostTwenty countingRNG
        11 5 0 0).map (fun r => (r.1, drawValues r.2.1, generateArgs r.2.1, r.2.2)) =
      some (false, [3, 10, 17], [(5, 0), (5, 3), (5, 10), (5, 17)], 3) ∧
    ∃ b es g' m, Property.check (Arbitrary_vector seedElement) nonEmptyAtMostTwenty
        countingRNG 11 5 0 0 = some (b, es, g') ∧
      drawValues es = rngDraws countingRNG m 0 ∧ (drawValues es).length = m ∧
      g' = rngState countingRNG m 0 ∧
      generateArgs es =
        ((0 :: (drawValues es).map (fun r => r % ULONG_MOD)).take
          (if b then 5 else m + 1)).map (fun s => (5, s)) ∧
      (generateArgs es).length = (if b then 5 else m + 1) ∧
      (b = true → m = 5) ∧ (b = false → m < 5) ∧
      (∀ s ∈ trialSeeds countingRNG m 0 0,
        ∃ e, Property.checkSingle (Arbitrary_vector seedElement) nonEmptyAtMostTwenty 11
          ((Arbitrary_vector seedElement).generate 5 s) = some (true, e)) ∧
      (b = false → ∃ s e, (trialSeeds countingRNG 5 0 0)[m]? = some s ∧
        Property.checkSingle (Arbitrary_vector seedElement) nonEmptyAtMostTwenty 11
          ((Arbitrary_vector seedElement).generate 5 s) = some (false, e)) :=
  ⟨by decide,
    check_draws_per_passing_trial (Arbitrary_vector seedElement) nonEmptyAtMostTwenty
      countingRNG List.length (fun p c hc => RandomSequence_shrink_length_lt p c hc) 11 5 0 0
      (fun s => by
        show (Arbitrary_RandomSequence.generate seedElement 5 s).length < 11
        rw [RandomSequence_generate_length seedElement 5 s (by decide)]
        decide)⟩

end testinator

namespace testinator

/-- In the events of the loop of `check`, every call of `generate` has level `N` and is
directly followed by the call of the predicate on the generated value. -/
theorem checkLoop_generate_then_eval {α σ : Type} (A : Arbitrary α) (m_u : α → Bool)
    (RNG : σ → Nat × σ) (fuel N : Nat) :
    ∀ (k seed : Nat) (g : σ) (b : Bool) (es : List (Event α)) (g' : σ),
      Property.checkLoop A m_u RNG fuel N k seed g = some (b, es, g') →
      ∀ pre level s post, es = pre ++ Event.generate level s :: post →
        level = N ∧ ∃ post', post = Event.eval (A.generate N s) :: post' := by
  intro k
  induction k with
  | zero =>
    intro seed g b es g' h pre level s post hes
    simp only [Property.checkLoop, Option.some.injEq, Prod.mk.injEq] at h
    rw [← h.2.1] at hes
    simp at hes
  | succ k ih =>
    intro seed g b es g' h pre level s post hes
    cases hs : Property.checkSingle A m_u fuel (A.generate N seed) with
    | none => rw [checkLoop_succ_none A m_u RNG fuel N k seed g hs] at h; simp at h
    | some r1 =>
      obtain ⟨b1, es1⟩ := r1
      obtain ⟨⟨es1', hhead⟩, hnot⟩ := checkSingle_events A m_u fuel _ _ _ hs
      have hnogen : ∀ a c, es1 ≠ a ++ Event.generate level s :: c := by
        intro a c hac
        have := hnot (Event.generate level s) (by rw [hac]; simp)
        simp [Event.isTrial] at this
      cases b1 with
      | false =>
        rw [checkLoop_succ_false A m_u RNG fuel N k seed g es1 hs] at h
        simp only [Option.some.injEq, Prod.mk.injEq] at h
        rw [← h.2.1] at hes
        cases pre with
        | nil =>
          simp only [List.nil_append, List.cons_append, List.cons.injEq,
            Event.generate.injEq] at hes
          obtain ⟨⟨hl, hseed⟩, hpost⟩ := hes
          subst hl hseed
          exact ⟨rfl, es1' ++ [Event.reproduce seed], by rw [← hpost, hhead]; rfl⟩
        | cons x pre' =>
          simp only [List.cons_append, List.cons.injEq] at hes
          obtain ⟨_, hrest⟩ := hes
          rcases List.append_eq_append_iff.mp hrest with ⟨a', _, ha⟩ | ⟨c', hc, hc2⟩
          · cases a' with
            | nil => simp at ha
            | cons y a'' => simp at ha
          · cases c' with
            | nil => simp at hc2
            | cons y c'' =>
              simp only [List.cons_append, List.cons.injEq] at hc2
              rw [← hc2.1] at hc
              exact absurd hc (hnogen pre' c'')
      | true =>
        rw [checkLoop_succ_true A m_u RNG fuel N k seed g es1 hs] at h
        cases hl : Property.checkLoop A m_u RNG fuel N k ((RNG g).1 % ULONG_MOD) (RNG g).2 with
        | none => rw [hl] at h; simp at h
        | some r2 =>
          obtain ⟨b2, es2, g2⟩ := r2
          rw [hl] at h
          simp only [Option.map_some', Option.some.injEq, Prod.mk.injEq] at h
          rw [← h.2.1] at hes
          cases pre with
          | nil =>
            simp only [List.nil_append, List.cons_append, List.cons.injEq,
              Event.generate.injEq] at hes
            obtain ⟨⟨hlv, hseed⟩, hpost⟩ := hes
            subst hlv hseed
            exact ⟨rfl, es1' ++ Event.draw (RNG g).1 :: es2, by rw [← hpost, hhead]; rfl⟩
          | cons x pre' =>
            simp only [List.cons_append, List.cons.injEq] at hes
            obtain ⟨_, hrest⟩ := hes
            rcases List.append_eq_append_iff.mp hrest with ⟨a', _, ha⟩ | ⟨c', hc, hc2⟩
            · cases a' with
              | nil => simp at ha
              | cons y a'' =>
                simp only [List.cons_append, List.cons.injEq] at ha
                exact ih _ _ _ _ _ hl a'' level s post ha.2
            · cases c' with
              | nil => simp at hc2
              | cons y c'' =>
                simp only [List.cons_append, List.cons.injEq] at hc2
                rw [← hc2.1] at hc
                exact absurd hc (hnogen pre' c'')

/-- The events of a loop of `check` with a trial left start with the call of `generate`
for the current seed. -/
theorem checkLoop_succ_head {α σ : Type} (A : Arbitrary α) (m_u : α → Bool)
    (RNG : σ → Nat × σ) (fuel N k seed : Nat) (g : σ) (b : Bool) (es : List (Event α))
    (g' : σ) (h : Property.checkLoop A m_u RNG fuel N (k + 1) seed g = some (b, es, g')) :
    ∃ post, es = Event.generate N seed :: post := by
  cases hs : Property.checkSingle A m_u fuel (A.generate N seed) with
  | none => rw [checkLoop_succ_none A m_u RNG fuel N k seed g hs] at h; simp at h
  | some r1 =>
    obtain ⟨b1, es1⟩ := r1
    cases b1 with
    | false =>
      rw [checkLoop_succ_false A m_u RNG fuel N k seed g es1 hs] at h
      simp only [Option.some.injEq, Prod.mk.injEq] at h
      exact ⟨_, h.2.1.symm⟩
    | true =>
      rw [checkLoop_succ_true A m_u RNG fuel N k seed g es1 hs] at h
      cases hl : Property.checkLoop A m_u RNG fuel N k ((RNG g).1 % ULONG_MOD) (RNG g).2 with
      | none => rw [hl] at h; simp at h
      | some r2 =>
        rw [hl] at h
        simp only [Option.map_some', Option.some.injEq, Prod.mk.injEq] at h
        exact ⟨_, h.2.1.symm⟩

/-- C19: for `1 ≤ N` and any of the four sequence containers, `check(N, reporter)`
returns once the depth bound exceeds the element count of level `N`; its first events
are the call `generate(N, seed)` for the property's seed and the call of the predicate on
the generated container; every call of `generate` it makes has level `N` and is directly
followed by the call of the predicate on the container generated for that seed, which
has `10 * (N / 100 + 1)` elements whatever the trial. -/
theorem check_top_level_value {α σ : Type} (E : Arbitrary α) (A : Arbitrary (List α))
    (hA : IsSequenceArbitrary E A) (m_u : List α → Bool) (RNG : σ → Nat × σ)
    (fuel N seed : Nat) (g : σ) (hN1 : 1 ≤ N) (hN : N < SIZE_MOD)
    (hfuel : 10 * (N / 100 + 1) < fuel) :
    ∃ b es g', Property.check A m_u RNG fuel N seed g = some (b, es, g') ∧
      (∃ post, es = Event.generate N seed :: Event.eval (A.generate N seed) :: post) ∧
      ∀ pre level s post, es = pre ++ Event.generate level s :: post →
        level = N ∧ (∃ post', post = Event.eval (A.generate N s) :: post') ∧
        (A.generate N s).length = 10 * (N / 100 + 1) := by
  obtain ⟨⟨b, es, g'⟩, hr⟩ := checkLoop_total A m_u RNG fuel N
    (fun s => checkSingle_total A m_u List.length (sequence_shrink_length_lt E A hA) _ _ fuel
      (Nat.le_refl _) (sequence_generate_length_lt E A hA fuel N hN hfuel s)) N seed g
  have hdec := checkLoop_generate_then_eval A m_u RNG fuel N N seed g b es g' hr
  have hlen : ∀ s, (A.generate N s).length = 10 * (N / 100 + 1) := by
    intro s
    rw [sequence_generate_length E A hA N s hN, if_neg (by omega)]
  refine ⟨b, es, g', hr, ?_, fun pre level s post hes =>
    ⟨(hdec pre level s post hes).1, (hdec pre level s post hes).2, hlen s⟩⟩
  obtain ⟨k, hk⟩ : ∃ k, N = k + 1 := ⟨N - 1, by omega⟩
  have hr' : Property.checkLoop A m_u RNG fuel N (k + 1) seed g = some (b, es, g') := by
    rw [← hk]
    exact hr
  obtain ⟨post, hpost⟩ := checkLoop_succ_head A m_u RNG fuel N k seed g b es g' hr'
  obtain ⟨_, post', hpost'⟩ := hdec [] N seed post hpost
  exact ⟨post', by rw [hpost, hpost']⟩

/-- Witness for `check_top_level_value`: three passing trials of a forward_list
property at `N = 3`. -/
theorem check_top_level_value_witness :
    (IsSequenceArbitrary seedElement (Arbitrary_forward_list.arbitrary seedElement) ∧
      1 ≤ 3 ∧ 3 < SIZE_MOD ∧ 10 * (3 / 100 + 1) < 11) ∧
    (Property.check (Arbitrary_forward_list.arbitrary seedElement) nonEmptyAtMostTwenty
        countingRNG 11 3 0 0).map (fun r => (r.1, evalValues r.2.1, generateArgs r.2.1)) =
      some (true,
        [[9, 8, 7, 6, 5, 4, 3, 2, 1, 0], [12, 11, 10, 9, 8, 7, 6, 5, 4, 3],
          [19, 18, 17, 16, 15, 14, 13, 12, 11, 10]],
        [(3, 0), (3, 3), (3, 10)]) ∧
    ∃ b es g', Property.check (Arbitrary_forward_list.arbitrary seedElement)
        nonEmptyAtMostTwenty countingRNG 11 3 0 0 = some (b, es, g') ∧
      (∃ post, es = Event.generate 3 0 ::
        Event.eval ((Arbitrary_forward_list.arbitrary seedElement).generate 3 0) :: post) ∧
      ∀ pre level s post, es = pre ++ Event.generate level s :: post →
        level = 3 ∧
        (∃ post', post =
          Event.eval ((Arbitrary_forward_list.arbitrary seedElement).generate 3 s) :: post') ∧
        ((Arbitrary_forward_list.arbitrary seedElement).generate 3 s).length =
          10 * (3 / 100 + 1) :=
  ⟨⟨Or.inr (Or.inr (Or.inr rfl)), by decide, by decide, by decide⟩, by decide,
    check_top_level_value seedElement (Arbitrary_forward_list.arbitrary seedElement)
      (Or.inr (Or.inr (Or.inr rfl))) nonEmptyAtMostTwenty countingRNG 11 3 0 0
      (by decide) (by decide) (by decide)⟩

end testinator
